import Mathlib

/-!
# Verification of the cinfer grammar-constrained agent framework

Shallow embedding of the core of the `cinfer` repository
(`src/cinfer/registry.py`, `src/cinfer/grammar.py`, `src/cinfer/agent.py`,
`src/scripts/validate_python_gbnf.py`) together with proofs of the
spec-level claims about it.

Conventions of the embedding:
* Python strings are Lean `String`s; most reasoning happens on `String.data`
  (`List Char`).
* Python dicts that are used as insertion-ordered maps become association
  lists (`List (key × value)`); `dict.get` is `lookup` on the first match,
  assignment replaces the first binding in place (keeping insertion order)
  or appends.
* Stateful Python objects (the grammar generator's cache, the registry,
  the agent's conversation history) are passed explicitly as state values.
* The md5 digest of the serialized cache content is modelled by the hashed
  content itself (an inductive value): the code only ever compares digests
  of deterministically serialized content for equality, so equality of the
  modelled content is the faithful, collision-free reading of that check.
* The HTTP generation backend is an oracle: an infinite sequence of
  responses, each either generated text or a transport failure.
-/

namespace Cinfer

/-! ## Python string helpers -/

/-- One pass of Python's `str.replace(target, repl)` for a single-character
`target`: every occurrence of `target` is replaced by `repl` (left to right;
for a one-character pattern this is exactly a per-character expansion). -/
def replaceChar (target : Char) (repl : List Char) : List Char → List Char
  | [] => []
  | c :: cs => (if c = target then repl else [c]) ++ replaceChar target repl cs

/-- Python whitespace (the characters stripped by `str.strip()`). -/
def isPySpace (c : Char) : Bool :=
  c = ' ' || c = '\t' || c = '\n' || c = '\r' || c = '\x0b' || c = '\x0c'

/-- `str.strip()` on char lists: drop leading and trailing whitespace. -/
def pyStripChars (l : List Char) : List Char :=
  ((l.dropWhile (fun c => isPySpace c)).reverse.dropWhile (fun c => isPySpace c)).reverse

/-- `str.strip()`. -/
def pyStrip (s : String) : String := ⟨pyStripChars s.data⟩

/-- `str.strip(chars)`: drop leading and trailing characters drawn from `cs`. -/
def pyStripSet (cs : List Char) (s : String) : String :=
  ⟨((s.data.dropWhile (fun c => c ∈ cs)).reverse.dropWhile (fun c => c ∈ cs)).reverse⟩

/-- Python's `sep.join(items)`. -/
def pyJoin (sep : String) : List String → String
  | [] => ""
  | [x] => x
  | x :: xs => x ++ sep ++ pyJoin sep xs

/-- `str.lower()` (ASCII case fold, which covers every string the code
lowercases). -/
def pyLower (s : String) : String := ⟨s.data.map Char.toLower⟩

/-- Python's `needle in haystack` on strings: substring containment. -/
def pyContains (haystack needle : String) : Bool :=
  haystack.data.tails.any (fun t => needle.data.isPrefixOf t)

/-- Python's `str(b)` for a bool: `"True"` / `"False"`. -/
def pyBoolStr (b : Bool) : String := if b then "True" else "False"

/-- `str.splitlines()` restricted to `'\n'` separators (the only line
separator produced in this code base): split, not keeping the separators,
with no trailing empty piece for a trailing newline. -/
def splitLinesAux (cur : List Char) : List Char → List (List Char)
  | [] => [cur.reverse]
  | c :: cs => if c = '\n' then cur.reverse :: splitLinesAux [] cs else splitLinesAux (c :: cur) cs

/-- Python `str.split('\n')`: every `'\n'` separates, empty pieces kept. -/
def pySplitNl (s : String) : List String :=
  (splitLinesAux [] s.data).map (fun l => ⟨l⟩)

/-- `s.startswith(p)`. -/
def pyStartsWith (s p : String) : Bool := p.data.isPrefixOf s.data

/-! ## `GrammarGenerator._escape_string` (src/cinfer/grammar.py lines 21-29)

The Python body is five successive `str.replace` calls, each with a
single-character pattern:
backslash, double quote, newline, carriage return, tab, in that order. -/

/-- `_escape_string` on char lists: the five replaces, innermost first,
exactly in the source's order. -/
def escapeList (l : List Char) : List Char :=
  replaceChar '\t' ['\\', 't']
    (replaceChar '\r' ['\\', 'r']
      (replaceChar '\n' ['\\', 'n']
        (replaceChar '"' ['\\', '"']
          (replaceChar '\\' ['\\', '\\'] l))))

/-- `GrammarGenerator._escape_string`. -/
def escapeString (s : String) : String := ⟨escapeList s.data⟩

/-- Per-character view of the escaping: what the five sequential replaces
amount to for a single character. -/
def escChar (c : Char) : List Char :=
  if c = '\\' then ['\\', '\\']
  else if c = '"' then ['\\', '"']
  else if c = '\n' then ['\\', 'n']
  else if c = '\r' then ['\\', 'r']
  else if c = '\t' then ['\\', 't']
  else [c]

/-- Modelled from the spec: the repository ships no unescape routine; the
spec's "applying the corresponding unescape" is the standard GBNF literal
decoder, mapping `\n`, `\r`, `\t` to the control characters and any other
escaped character (backslash, quote) to itself. Decoder for the character
following a backslash. -/
def unescChar (c : Char) : Char :=
  if c = 'n' then '\n'
  else if c = 'r' then '\r'
  else if c = 't' then '\t'
  else c

/-- Modelled from the spec: the left-to-right unescape pass corresponding to
`_escape_string`. -/
def unescapeList : List Char → List Char
  | [] => []
  | c :: rest =>
    if c = '\\' then
      match rest with
      | [] => ['\\']
      | x :: rest2 => unescChar x :: unescapeList rest2
    else c :: unescapeList rest

/-- Modelled from the spec: string-level unescape. -/
def unescapeString (s : String) : String := ⟨unescapeList s.data⟩

theorem replaceChar_append (t : Char) (r : List Char) (a b : List Char) :
    replaceChar t r (a ++ b) = replaceChar t r a ++ replaceChar t r b := by
  induction a with
  | nil => rfl
  | cons c cs ih => simp [replaceChar, ih]

theorem escapeList_append (a b : List Char) :
    escapeList (a ++ b) = escapeList a ++ escapeList b := by
  simp [escapeList, replaceChar_append]

/-- The five sequential replaces act per character, as `escChar`. -/
theorem escapeList_eq_flatten (l : List Char) :
    escapeList l = (l.map escChar).flatten := by
  induction l with
  | nil => rfl
  | cons c cs ih =>
    have h : escapeList (c :: cs) = escapeList [c] ++ escapeList cs := by
      simpa using escapeList_append [c] cs
    rw [h, ih]
    have hc : escapeList [c] = escChar c := by
      by_cases h1 : c = '\\'
      · subst h1; rfl
      · by_cases h2 : c = '"'
        · subst h2; rfl
        · by_cases h3 : c = '\n'
          · subst h3; rfl
          · by_cases h4 : c = '\r'
            · subst h4; rfl
            · by_cases h5 : c = '\t'
              · subst h5; rfl
              · simp [escapeList, replaceChar, escChar, h1, h2, h3, h4, h5]
    rw [hc]
    rfl

theorem unescapeList_escChar (c : Char) (rest : List Char) :
    unescapeList (escChar c ++ rest) = c :: unescapeList rest := by
  by_cases h1 : c = '\\'
  · subst h1; simp [escChar, unescapeList, unescChar]
  · by_cases h2 : c = '"'
    · subst h2; simp [escChar, unescapeList, unescChar]
    · by_cases h3 : c = '\n'
      · subst h3; simp [escChar, unescapeList, unescChar]
      · by_cases h4 : c = '\r'
        · subst h4; simp [escChar, unescapeList, unescChar]
        · by_cases h5 : c = '\t'
          · subst h5; simp [escChar, unescapeList, unescChar]
          · have hc : escChar c = [c] := by simp [escChar, h1, h2, h3, h4, h5]
            rw [hc, List.singleton_append, unescapeList.eq_def]
            simp [h1]

theorem unescapeList_escapeList (l : List Char) :
    unescapeList (escapeList l) = l := by
  rw [escapeList_eq_flatten]
  induction l with
  | nil => rfl
  | cons c cs ih =>
    simp only [List.map_cons, List.flatten_cons]
    rw [unescapeList_escChar, ih]

private theorem stringMk_data (s : String) : String.mk s.data = s := rfl

/-- **C8.** `_escape_string` escapes backslash, double quote, newline,
carriage return and tab, in that fixed order of replace passes (this is the
very shape of `escapeList`), and the escaping is reversible: the
corresponding unescape recovers every original string, including strings
containing quotes, backslashes and control characters. -/
theorem escape_unescape_roundtrip (s : String) :
    unescapeString (escapeString s) = s := by
  show String.mk (unescapeList (escapeList s.data)) = s
  rw [unescapeList_escapeList]

/-! ## Data model (src/cinfer/registry.py)

Python's `dict` (insertion-ordered) becomes an association list; assignment
replaces the first binding in place or appends, deletion removes the first
binding. `inspect.Parameter` annotations are modelled by the string the code
actually inspects (`str(param.annotation)`) plus the optional pydantic
record schema the coercion path introspects. Enumerated dependency payloads
(`source_object` when not a grammar) are finite snapshots of scalar values
(strings / ints / bools), which is what `@depends` declarations snapshot. -/

/-- Python values flowing through parameter coercion and tool invocation. -/
inductive PyVal where
  | vStr (s : String)
  | vInt (n : Int)
  | vFloat (raw : String)
  | vBool (b : Bool)
  | vNone
  | vList (items : List PyVal)
  | vDict (fields : List (String × PyVal))
  | vRecord (typeName : String) (fields : List (String × PyVal))

/-- A scalar element of an enumerated dependency's snapshot. -/
inductive DepVal where
  | dStr (s : String)
  | dInt (n : Int)
  | dBool (b : Bool)
deriving DecidableEq

/-- Python `str(val)` for a dependency value. -/
def DepVal.pyStr : DepVal → String
  | .dStr s => s
  | .dInt n => toString n
  | .dBool b => pyBoolStr b

/-- The `source_object` field of a dependency: either a snapshot of
enumerated values or raw GBNF grammar text (this is the correspondence the
decorators establish with the `is_grammar` flag). -/
inductive SourceObj where
  | vals (values : List DepVal)
  | gram (text : String)

/-- `ParameterDependency` (registry.py lines 13-19). -/
structure ParameterDependency where
  paramName : String
  sourceObject : SourceObj
  sourceName : String
  isGrammar : Bool

/-- What the agent inspects about one `inspect.Parameter`:
`str(param.annotation)` and, when the annotation is `List[SomePydanticModel]`,
that model's field schema (field name → `str(field type)`). `none` covers
both plain annotations and non-record element types. -/
structure ParamAnn where
  typeName : String
  recordFields : Option (List (String × String))

/-- A Python callable as the registry sees one: `__name__`, `__doc__`,
its signature, and the call behaviour (`Except.error` models a raise). -/
structure PyFunc where
  name : String
  doc : String
  params : List (String × ParamAnn)
  call : List (String × PyVal) → Except String PyVal

/-- `ToolMetadata` (registry.py lines 22-36). -/
structure ToolMetadata where
  name : String
  func : PyFunc
  description : String
  parameters : List (String × ParamAnn)
  dependencies : List ParameterDependency

/-- `ToolMetadata.get_dependency`: first dependency declared for the
parameter, if any. -/
def ToolMetadata.getDependency (t : ToolMetadata) (paramName : String) :
    Option ParameterDependency :=
  t.dependencies.find? (fun dep => dep.paramName == paramName)

/-- Association-list update with Python-dict semantics: replace the first
binding for the key in place, else append. -/
def aset {α : Type} (k : String) (v : α) : List (String × α) → List (String × α)
  | [] => [(k, v)]
  | (k', v') :: rest => if k' = k then (k, v) :: rest else (k', v') :: aset k v rest

/-- Association-list deletion (`del d[k]`): remove the first binding. -/
def adel {α : Type} (k : String) : List (String × α) → List (String × α)
  | [] => []
  | (k', v') :: rest => if k' = k then rest else (k', v') :: adel k rest

/-- `ToolRegistry`: the `_tools` dict plus the `_pending_dependencies`
holding area (registry.py lines 39-48). -/
structure Registry where
  tools : List (String × ToolMetadata)
  pending : List (String × List ParameterDependency)

/-- `ToolRegistry.register_tool` (registry.py lines 50-68): build fresh
metadata from the function's signature, adopt any pending dependencies for
the name (deleting the pending entry), and insert/replace the descriptor. -/
def Registry.registerTool (reg : Registry) (func : PyFunc)
    (description : String := "") : Registry :=
  let toolName := func.name
  let desc := if description ≠ "" then description else func.doc
  let metadata : ToolMetadata :=
    { name := toolName, func := func, description := desc
      parameters := func.params, dependencies := [] }
  match reg.pending.lookup toolName with
  | some deps =>
      { tools := aset toolName { metadata with dependencies := deps } reg.tools
        pending := adel toolName reg.pending }
  | none =>
      { tools := aset toolName metadata reg.tools, pending := reg.pending }

/-- `ToolRegistry.add_dependency` (registry.py lines 70-81): attach to the
registered tool if it exists, else buffer under the pending area. -/
def Registry.addDependency (reg : Registry) (funcName paramName : String)
    (sourceObject : SourceObj) (sourceName : String)
    (isGrammar : Bool := false) : Registry :=
  let dep : ParameterDependency :=
    { paramName := paramName, sourceObject := sourceObject
      sourceName := sourceName, isGrammar := isGrammar }
  match reg.tools.lookup funcName with
  | some md =>
      { reg with
        tools := aset funcName
          { md with dependencies := md.dependencies ++ [dep] } reg.tools }
  | none =>
      { reg with
        pending :=
          match reg.pending.lookup funcName with
          | some deps => aset funcName (deps ++ [dep]) reg.pending
          | none => aset funcName [dep] reg.pending }

/-- `ToolRegistry.get_tool`. -/
def Registry.getTool (reg : Registry) (name : String) : Option ToolMetadata :=
  reg.tools.lookup name

/-! ## Grammar generation (src/cinfer/grammar.py)

`_hash_object` md5-hashes `json.dumps` of the content; both are
deterministic, and the code only ever compares such digests for equality,
so the digest is modelled by the canonical content itself. -/

/-- The modelled md5 digest: the canonicalized content that was hashed.
`toolsKey` is `_hash_object((sorted(tools.keys()), allow_none))`, `valsKey`
is `_hash_object(dependency.source_object)` (the value list, in order — the
code does not sort it; `sort_keys=True` only affects dict keys). -/
inductive HashVal where
  | toolsKey (names : List String) (allowNone : Bool)
  | valsKey (values : List DepVal)
deriving DecidableEq

/-- The generator's `_cache` and `_object_hashes` dicts. -/
structure GenState where
  cache : List (String × String)
  objectHashes : List (String × HashVal)

/-- Python `sorted` on strings (lexicographic by code point). -/
def sortStrings (l : List String) : List String :=
  l.mergeSort (fun a b => decide (a ≤ b))

/-- `f"tools_grammar_none_{allow_none}"`. -/
def toolsCacheKey (allowNone : Bool) : String :=
  "tools_grammar_none_" ++ pyBoolStr allowNone

/-- The alternation body built at grammar.py lines 71-76 from the sorted
tool names: escaped names quoted and joined by `" | "`, prefixed by the
literal `"NONE"` alternative when `allow_none`. -/
def toolsAlternatives (names : List String) (allowNone : Bool) : String :=
  let alternatives :=
    pyJoin " | " (names.map (fun name => "\"" ++ escapeString name ++ "\""))
  if allowNone then "\"NONE\" | " ++ alternatives else alternatives

/-- The grammar `generate_tools_grammar` computes on a cache miss, as a
function of the sorted tool names. -/
def toolsGrammarFor (names : List String) (allowNone : Bool) : String :=
  if names.isEmpty then "root ::= \"NO_TOOLS_AVAILABLE\""
  else "root ::= " ++ toolsAlternatives names allowNone

/-- `GrammarGenerator.generate_tools_grammar` (grammar.py lines 44-85),
with the generator's mutable cache passed as explicit state. -/
def generateToolsGrammar (reg : Registry) (allowNone : Bool)
    (st : GenState) : String × GenState :=
  let cacheKey := toolsCacheKey allowNone
  let tools := reg.tools
  let toolsHash := HashVal.toolsKey (sortStrings (tools.map (·.1))) allowNone
  let cached :=
    match st.cache.lookup cacheKey with
    | some g =>
        if st.objectHashes.lookup cacheKey = some toolsHash then some g else none
    | none => none
  match cached with
  | some g => (g, st)
  | none =>
      let grammar :=
        if tools.isEmpty then "root ::= \"NO_TOOLS_AVAILABLE\""
        else "root ::= " ++ toolsAlternatives (sortStrings (tools.map (·.1))) allowNone
      (grammar,
        { cache := aset cacheKey grammar st.cache
          objectHashes := aset cacheKey toolsHash st.objectHashes })

/-! ## Semantics of flat literal-alternation grammars

The tool-selection grammar always has the single-rule shape
`root ::= "lit1" | "lit2" | ...`; such a grammar accepts exactly the decoded
literals. The decoder below parses that shape back (quoted GBNF literals,
backslash escapes decoded, separated by `" | "`). -/

/-- Scan one GBNF quoted literal body: consume up to the closing quote,
decoding backslash escapes; return the decoded literal and the rest. -/
def scanLit : List Char → Option (List Char × List Char)
  | [] => none
  | c :: rest =>
    if c = '"' then some ([], rest)
    else if c = '\\' then
      match rest with
      | [] => none
      | x :: rest2 => (scanLit rest2).map (fun p => (unescChar x :: p.1, p.2))
    else (scanLit rest).map (fun p => (c :: p.1, p.2))

/-- Parse a `" | "`-separated sequence of quoted literals (with fuel). -/
def parseAlts : Nat → List Char → Option (List String)
  | 0, _ => none
  | fuel + 1, l =>
    match l with
    | [] => none
    | c :: rest =>
      if c = '"' then
        match scanLit rest with
        | none => none
        | some (lit, rest2) =>
          match rest2 with
          | [] => some [⟨lit⟩]
          | ' ' :: '|' :: ' ' :: rest3 =>
              (parseAlts fuel rest3).map (fun ls => String.mk lit :: ls)
          | _ => none
      else none

/-- The decoded literal alternatives of a flat `root ::= ...` grammar. -/
def flatAltLiterals (g : String) : Option (List String) :=
  let pre := ("root ::= ").data
  if pre.isPrefixOf g.data then parseAlts (g.data.length + 1) (g.data.drop pre.length)
  else none

/-- Acceptance by a flat literal-alternation grammar: membership in its
decoded literal list. -/
def flatAltAccepts (g : String) (s : String) : Bool :=
  match flatAltLiterals g with
  | some lits => lits.contains s
  | none => false

/-! ## C1: the tool-selection grammar -/

theorem list_isEmpty_map {α β : Type} (f : α → β) (l : List α) :
    (l.map f).isEmpty = l.isEmpty := by
  cases l <;> rfl

theorem scanLit_escaped (l : List Char) (rest : List Char) :
    scanLit ((l.map escChar).flatten ++ '"' :: rest) = some (l, rest) := by
  induction l with
  | nil =>
    rw [List.map_nil, List.flatten_nil, List.nil_append, scanLit.eq_def]
    simp
  | cons c cs ih =>
    simp only [List.map_cons, List.flatten_cons, List.append_assoc]
    by_cases h1 : c = '\\'
    · subst h1
      simp only [escChar, if_pos rfl, List.cons_append]
      rw [scanLit.eq_def]
      simp [ih, unescChar]
    · by_cases h2 : c = '"'
      · subst h2
        simp only [escChar, reduceIte, List.cons_append]
        rw [scanLit.eq_def]
        simp [ih, unescChar]
      · by_cases h3 : c = '\n'
        · subst h3
          simp only [escChar, reduceIte, List.cons_append]
          rw [scanLit.eq_def]
          simp [ih, unescChar]
        · by_cases h4 : c = '\r'
          · subst h4
            simp only [escChar, reduceIte, List.cons_append]
            rw [scanLit.eq_def]
            simp [ih, unescChar]
          · by_cases h5 : c = '\t'
            · subst h5
              simp only [escChar, reduceIte, List.cons_append]
              rw [scanLit.eq_def]
              simp [ih, unescChar]
            · have hc : escChar c = [c] := by simp [escChar, h1, h2, h3, h4, h5]
              rw [hc, List.singleton_append, scanLit.eq_def]
              simp [h2, h1, ih]

/-- Data of one quoted escaped name. -/
theorem quoted_data (n : String) :
    ("\"" ++ escapeString n ++ "\"").data = '"' :: (escapeList n.data ++ ['"']) := by
  simp [String.data_append, escapeString]

theorem parseAlts_join (ns : List String) :
    ns ≠ [] → ∀ fuel, ns.length ≤ fuel →
    parseAlts fuel
      (pyJoin " | " (ns.map (fun n => "\"" ++ escapeString n ++ "\""))).data
      = some ns := by
  induction ns with
  | nil => intro h; exact absurd rfl h
  | cons n tail ih =>
    intro _ fuel hfuel
    match fuel, hfuel with
    | fuel + 1, hfuel =>
      cases tail with
      | nil =>
        have hdata := quoted_data n
        simp only [List.map_cons, List.map_nil, pyJoin]
        rw [parseAlts.eq_def]
        simp only [hdata]
        have hscan : scanLit (escapeList n.data ++ ['"']) = some (n.data, []) := by
          have := scanLit_escaped n.data []
          rwa [← escapeList_eq_flatten] at this
        simp [hscan]
      | cons m ms =>
        have hne : m :: ms ≠ ([] : List String) := by simp
        have hlen : (m :: ms).length ≤ fuel := by
          simp only [List.length_cons] at hfuel ⊢; omega
        have hrec := ih hne fuel hlen
        simp only [List.map_cons, pyJoin]
        rw [parseAlts.eq_def]
        have hshape :
            (("\"" ++ escapeString n ++ "\"") ++ " | " ++
              pyJoin " | " ((m :: ms).map (fun n => "\"" ++ escapeString n ++ "\""))).data
            = '"' :: (escapeList n.data ++ '"' :: ' ' :: '|' :: ' ' ::
                (pyJoin " | " ((m :: ms).map (fun n => "\"" ++ escapeString n ++ "\""))).data) := by
          simp [String.data_append, escapeString]
        simp only [List.map_cons] at hshape
        rw [hshape]
        have hscan : scanLit (escapeList n.data ++ '"' :: ' ' :: '|' :: ' ' ::
            (pyJoin " | " ((m :: ms).map (fun n => "\"" ++ escapeString n ++ "\""))).data)
            = some (n.data, ' ' :: '|' :: ' ' ::
              (pyJoin " | " ((m :: ms).map (fun n => "\"" ++ escapeString n ++ "\""))).data) := by
          have := scanLit_escaped n.data (' ' :: '|' :: ' ' ::
            (pyJoin " | " ((m :: ms).map (fun n => "\"" ++ escapeString n ++ "\""))).data)
          rwa [← escapeList_eq_flatten] at this
        simp only [List.map_cons] at hscan hrec
        simp [hscan, hrec]

theorem join_length_ge (ns : List String) :
    ns ≠ [] →
    ns.length ≤
      (pyJoin " | " (ns.map (fun n => "\"" ++ escapeString n ++ "\""))).data.length := by
  induction ns with
  | nil => intro h; exact absurd rfl h
  | cons n tail ih =>
    intro _
    cases tail with
    | nil =>
      simp only [List.map_cons, List.map_nil, pyJoin, quoted_data,
        List.length_cons, List.length_nil]
      omega
    | cons m ms =>
      have hih := ih (by simp)
      simp only [List.map_cons, pyJoin, List.length_cons] at hih ⊢
      rw [String.data_append, String.data_append, List.length_append,
        List.length_append]
      have h3 : (" | ").data.length = 3 := rfl
      rw [h3]
      omega

theorem sortStrings_mem (l : List String) (s : String) :
    s ∈ sortStrings l ↔ s ∈ l :=
  (List.mergeSort_perm l _).mem_iff

theorem sortStrings_isEmpty (l : List String) :
    (sortStrings l).isEmpty = l.isEmpty := by
  have hlen : (sortStrings l).length = l.length :=
    (List.mergeSort_perm l _).length_eq
  cases h : sortStrings l with
  | nil =>
    rw [h] at hlen
    cases l with
    | nil => rfl
    | cons a as => simp at hlen
  | cons a as =>
    rw [h] at hlen
    cases l with
    | nil => simp at hlen
    | cons b bs => rfl

/-- Well-formedness of the generator cache for tool-selection entries: a
cached grammar stored under a digest for content `(names, b)` is the grammar
computed from that content. Every reachable generator state satisfies this
(entries are only ever stored together with the digest of the content they
were computed from). -/
def ToolsCacheWF (st : GenState) : Prop :=
  ∀ key g names b, st.cache.lookup key = some g →
    st.objectHashes.lookup key = some (.toolsKey names b) →
    g = toolsGrammarFor names b

theorem generateToolsGrammar_eq (reg : Registry) (b : Bool) (st : GenState)
    (hwf : ToolsCacheWF st) :
    (generateToolsGrammar reg b st).1 =
      toolsGrammarFor (sortStrings (reg.tools.map (·.1))) b := by
  unfold generateToolsGrammar
  cases hc : st.cache.lookup (toolsCacheKey b) with
  | none =>
    simp only [hc, toolsGrammarFor, sortStrings_isEmpty, list_isEmpty_map]
  | some g =>
    by_cases hh : st.objectHashes.lookup (toolsCacheKey b) =
        some (.toolsKey (sortStrings (reg.tools.map (·.1))) b)
    · simp only [hc, hh, if_pos rfl]
      exact hwf _ _ _ _ hc hh
    · simp only [hc, if_neg hh]
      simp only [toolsGrammarFor, sortStrings_isEmpty, list_isEmpty_map]

theorem flatAltLiterals_root (alts : String) (ns : List String) (hne : ns ≠ [])
    (halts : alts = pyJoin " | " (ns.map (fun n => "\"" ++ escapeString n ++ "\"")))
    (hlen : ns.length ≤ ("root ::= " ++ alts).data.length + 1) :
    flatAltLiterals ("root ::= " ++ alts) = some ns := by
  subst halts
  unfold flatAltLiterals
  have hpre : ("root ::= ").data.isPrefixOf
      ("root ::= " ++ pyJoin " | "
        (ns.map (fun n => "\"" ++ escapeString n ++ "\""))).data = true := by
    rw [String.data_append]
    exact List.isPrefixOf_iff_prefix.2 (List.prefix_append _ _)
  rw [if_pos hpre]
  have hdrop : ("root ::= " ++ pyJoin " | "
        (ns.map (fun n => "\"" ++ escapeString n ++ "\""))).data.drop
        ("root ::= ").data.length
      = (pyJoin " | " (ns.map (fun n => "\"" ++ escapeString n ++ "\""))).data := by
    rw [String.data_append]
    exact List.drop_left _ _
  rw [hdrop]
  exact parseAlts_join ns hne _ hlen

/-- **C1.** `generate_tools_grammar` with a well-formed cache: zero
registered tools yields exactly the fixed sentinel grammar
`root ::= "NO_TOOLS_AVAILABLE"`; a non-empty registry yields
`root ::= ` followed by the escaped tool names in sorted order joined by
`" | "`, prefixed by the literal `"NONE"` alternative exactly when
`allow_none` is true, and the resulting grammar accepts exactly the
registered tool names (plus `"NONE"` when enabled) and rejects every other
string. -/
theorem generate_tools_grammar_correct (reg : Registry) (b : Bool)
    (st : GenState) (hwf : ToolsCacheWF st) :
    ((reg.tools.isEmpty = true →
        (generateToolsGrammar reg b st).1 = "root ::= \"NO_TOOLS_AVAILABLE\"") ∧
     (reg.tools.isEmpty = false →
        (generateToolsGrammar reg b st).1 =
          "root ::= " ++ toolsAlternatives (sortStrings (reg.tools.map (·.1))) b ∧
        ∀ s : String, flatAltAccepts (generateToolsGrammar reg b st).1 s = true ↔
          (s ∈ reg.tools.map (·.1) ∨ (b = true ∧ s = "NONE")))) := by
  have hg := generateToolsGrammar_eq reg b st hwf
  constructor
  · intro hempty
    rw [hg, toolsGrammarFor, if_pos]
    rw [sortStrings_isEmpty, list_isEmpty_map]
    exact hempty
  · intro hne
    have hsne : (sortStrings (reg.tools.map (·.1))).isEmpty = false := by
      rw [sortStrings_isEmpty, list_isEmpty_map]; exact hne
    have hgrm : (generateToolsGrammar reg b st).1 =
        "root ::= " ++ toolsAlternatives (sortStrings (reg.tools.map (·.1))) b := by
      rw [hg, toolsGrammarFor, if_neg]
      simp [hsne]
    refine ⟨hgrm, ?_⟩
    intro s
    set sorted := sortStrings (reg.tools.map (·.1)) with hsorted
    have hsortedne : sorted ≠ [] := by
      intro h
      rw [h] at hsne
      simp [List.isEmpty] at hsne
    have hmem : ∀ t : List String, (t.contains s = true) ↔ s ∈ t := by
      intro t; exact List.elem_iff
    have hrootlen : ("root ::= ").data.length = 9 := rfl
    cases b with
    | false =>
      have he : toolsAlternatives sorted false =
          pyJoin " | " (sorted.map (fun n => "\"" ++ escapeString n ++ "\"")) := by
        simp [toolsAlternatives]
      have hlits : flatAltLiterals (generateToolsGrammar reg false st).1 =
          some sorted := by
        rw [hgrm]
        refine flatAltLiterals_root _ sorted hsortedne he ?_
        have h1 := join_length_ge sorted hsortedne
        rw [he, String.data_append, List.length_append, hrootlen]
        omega
      have hacc : flatAltAccepts (generateToolsGrammar reg false st).1 s =
          sorted.contains s := by
        rw [flatAltAccepts, hlits]
      rw [hacc, hmem sorted, hsorted, sortStrings_mem]
      simp
    | true =>
      have he : toolsAlternatives sorted true =
          pyJoin " | " (("NONE" :: sorted).map
            (fun n => "\"" ++ escapeString n ++ "\"")) := by
        simp only [toolsAlternatives, if_pos rfl, List.map_cons]
        have hnone : ("\"" ++ escapeString "NONE" ++ "\"") = "\"NONE\"" := rfl
        cases hs : sorted with
        | nil => exact absurd hs hsortedne
        | cons x xs => simp [pyJoin, hnone, ← String.append_assoc]
      have hlits : flatAltLiterals (generateToolsGrammar reg true st).1 =
          some ("NONE" :: sorted) := by
        rw [hgrm]
        refine flatAltLiterals_root _ ("NONE" :: sorted) (by simp) he ?_
        have h1 := join_length_ge ("NONE" :: sorted) (by simp)
        rw [he, String.data_append, List.length_append, hrootlen]
        omega
      have hacc : flatAltAccepts (generateToolsGrammar reg true st).1 s =
          ("NONE" :: sorted).contains s := by
        rw [flatAltAccepts, hlits]
      rw [hacc, hmem, List.mem_cons, hsorted, sortStrings_mem]
      constructor
      · rintro (h | h)
        · exact Or.inr ⟨rfl, h⟩
        · exact Or.inl h
      · rintro (h | ⟨-, h⟩)
        · exact Or.inr h
        · exact Or.inl h

/-- A concrete tool, as `@tool def filter(column, value)` would register. -/
def filterFunc : PyFunc :=
  { name := "filter", doc := "filter rows"
    params := [("column", ⟨"str", none⟩), ("value", ⟨"str", none⟩)]
    call := fun _ => .ok .vNone }

/-- Registry holding just the `filter` tool. -/
def filterRegistry : Registry := Registry.registerTool ⟨[], []⟩ filterFunc

/-- The empty generator state (a fresh `GrammarGenerator`). -/
def emptyGenState : GenState := ⟨[], []⟩

theorem emptyGenState_wf : ToolsCacheWF emptyGenState := by
  intro key g names b hc _
  simp [emptyGenState, List.lookup] at hc

/-- Witness for C1 at the concrete one-tool registry with `allow_none`. -/
theorem generate_tools_grammar_correct_witness :
    (generateToolsGrammar filterRegistry true emptyGenState).1 =
      "root ::= \"NONE\" | \"filter\"" ∧
    flatAltAccepts (generateToolsGrammar filterRegistry true emptyGenState).1
      "filter" = true ∧
    flatAltAccepts (generateToolsGrammar filterRegistry true emptyGenState).1
      "other" = false := by
  have h := (generate_tools_grammar_correct filterRegistry true emptyGenState
    emptyGenState_wf).2 rfl
  have hsort : sortStrings (List.map (fun x => x.1) filterRegistry.tools)
      = ["filter"] := by
    simp [filterRegistry, Registry.registerTool, filterFunc, aset, sortStrings]
  refine ⟨h.1.trans (by rw [hsort]; rfl), ?_, ?_⟩
  · exact (h.2 "filter").2 (Or.inl (by
      simp [filterRegistry, Registry.registerTool, filterFunc, aset]))
  · by_cases hb : flatAltAccepts
        (generateToolsGrammar filterRegistry true emptyGenState).1 "other" = true
    · exfalso
      have hm := (h.2 "other").1 hb
      simp [filterRegistry, Registry.registerTool, filterFunc, aset] at hm
    · simpa using hb

/-! ## C9 / C10: registry dependency bookkeeping -/

theorem lookup_aset_self {α : Type} (k : String) (v : α) (l : List (String × α)) :
    (aset k v l).lookup k = some v := by
  induction l with
  | nil => simp [aset, List.lookup]
  | cons kv rest ih =>
    obtain ⟨k', v'⟩ := kv
    by_cases h : k' = k
    · simp [aset, h, List.lookup]
    · simp only [aset, if_neg h, List.lookup]
      have : (k == k') = false := by
        simp only [beq_eq_false_iff_ne, ne_eq]
        exact fun he => h he.symm
      simp [this, ih]

theorem lookup_aset_ne {α : Type} (k k' : String) (v : α) (l : List (String × α))
    (h : k' ≠ k) : (aset k v l).lookup k' = l.lookup k' := by
  have hbeq : (k' == k) = false := beq_eq_false_iff_ne.2 h
  induction l with
  | nil => simp [aset, List.lookup, hbeq]
  | cons kv rest ih =>
    obtain ⟨k0, v0⟩ := kv
    by_cases h0 : k0 = k
    · subst h0
      simp [aset, List.lookup, hbeq]
    · simp [aset, if_neg h0, List.lookup, ih]

theorem aset_keys_mem {α : Type} (k : String) (v : α) (l : List (String × α))
    (k' : String) (h : k' ∈ (aset k v l).map (·.1)) :
    k' = k ∨ k' ∈ l.map (·.1) := by
  induction l with
  | nil => simpa [aset] using h
  | cons kv rest ih =>
    obtain ⟨k0, v0⟩ := kv
    by_cases h0 : k0 = k
    · subst h0
      simpa [aset] using h
    · rw [aset, if_neg h0] at h
      simp only [List.map_cons, List.mem_cons] at h ⊢
      rcases h with h | h
      · exact Or.inr (Or.inl h)
      · rcases ih h with h | h
        · exact Or.inl h
        · exact Or.inr (Or.inr h)

theorem aset_keys_nodup {α : Type} (k : String) (v : α) (l : List (String × α))
    (h : (l.map (·.1)).Nodup) : ((aset k v l).map (·.1)).Nodup := by
  induction l with
  | nil => simp [aset]
  | cons kv rest ih =>
    obtain ⟨k0, v0⟩ := kv
    simp only [List.map_cons, List.nodup_cons] at h
    by_cases h0 : k0 = k
    · subst h0
      have he : aset k0 v ((k0, v0) :: rest) = (k0, v) :: rest := by
        rw [aset, if_pos rfl]
      rw [he]
      simp only [List.map_cons, List.nodup_cons]
      exact h
    · simp only [aset, if_neg h0, List.map_cons, List.nodup_cons]
      refine ⟨?_, ih h.2⟩
      intro hmem
      rcases aset_keys_mem _ _ _ _ hmem with he | he
      · exact h0 he
      · exact h.1 he

theorem lookup_some_key_mem {α : Type} (k : String) (v : α)
    (l : List (String × α)) (h : l.lookup k = some v) : k ∈ l.map (·.1) := by
  induction l with
  | nil => simp [List.lookup] at h
  | cons kv rest ih =>
    obtain ⟨k0, v0⟩ := kv
    rw [List.lookup] at h
    by_cases hk : (k == k0) = true
    · simp only [List.map_cons, List.mem_cons]
      exact Or.inl (eq_of_beq hk)
    · rw [Bool.not_eq_true] at hk
      rw [hk] at h
      simp only [List.map_cons, List.mem_cons]
      exact Or.inr (ih h)

theorem lookup_adel_self {α : Type} (k : String) (l : List (String × α))
    (hnodup : (l.map (·.1)).Nodup) : (adel k l).lookup k = none := by
  induction l with
  | nil => simp [adel, List.lookup]
  | cons kv rest ih =>
    obtain ⟨k0, v0⟩ := kv
    simp only [List.map_cons, List.nodup_cons] at hnodup
    by_cases h0 : k0 = k
    · subst h0
      rw [adel, if_pos rfl]
      cases hl : rest.lookup k0 with
      | none => rfl
      | some v =>
        exact absurd (lookup_some_key_mem _ _ _ hl) hnodup.1
    · rw [adel, if_neg h0, List.lookup]
      have hbeq : (k == k0) = false := by
        simp only [beq_eq_false_iff_ne, ne_eq]
        exact fun he => h0 he.symm
      simp [hbeq, ih hnodup.2]

/-- **C10.** `register_tool` always builds a fresh metadata record: the
descriptor stored under the function's name afterwards has exactly the
function's signature and a dependency list equal to the pending-buffer
entries for that name (empty when none are pending). In particular,
re-registering an already-registered name replaces its descriptor and
discards every dependency previously attached to the old descriptor unless
it had been re-declared into the pending buffer beforehand. -/
theorem register_tool_fresh_metadata (reg : Registry) (func : PyFunc)
    (descr : String) :
    (reg.registerTool func descr).tools.lookup func.name
      = some { name := func.name, func := func
               description := if descr ≠ "" then descr else func.doc
               parameters := func.params
               dependencies := (reg.pending.lookup func.name).getD [] } ∧
    (reg.pending.lookup func.name = none →
      ((reg.registerTool func descr).tools.lookup func.name).map (·.dependencies)
        = some []) := by
  constructor
  · unfold Registry.registerTool
    cases hp : reg.pending.lookup func.name with
    | none => simp [hp, lookup_aset_self]
    | some deps => simp [hp, lookup_aset_self]
  · intro hnone
    unfold Registry.registerTool
    simp [hnone, lookup_aset_self]

/-- **C9.** A dependency declared through `add_dependency` for a name with
no registered tool is buffered at the end of that name's pending entry; when
`register_tool` later runs for the name, the buffered dependencies (earlier
pending ones first, then this one — declaration order) become the fresh
descriptor's dependency list and the pending entry is removed: the
dependency is never lost. -/
theorem dependency_buffered_then_merged (reg : Registry) (func : PyFunc)
    (descr p src : String) (obj : SourceObj) (ig : Bool)
    (habsent : reg.tools.lookup func.name = none)
    (hnodup : (reg.pending.map (·.1)).Nodup) :
    ((reg.addDependency func.name p obj src ig).pending.lookup func.name
      = some ((reg.pending.lookup func.name).getD []
          ++ [⟨p, obj, src, ig⟩])) ∧
    (List.lookup func.name
        (Registry.registerTool (reg.addDependency func.name p obj src ig)
          func descr).tools
      = some { name := func.name, func := func
               description := if descr ≠ "" then descr else func.doc
               parameters := func.params
               dependencies := (reg.pending.lookup func.name).getD []
                 ++ [⟨p, obj, src, ig⟩] }) ∧
    (List.lookup func.name
        (Registry.registerTool (reg.addDependency func.name p obj src ig)
          func descr).pending
      = none) := by
  have hpend : (reg.addDependency func.name p obj src ig).pending.lookup func.name
      = some ((reg.pending.lookup func.name).getD [] ++ [⟨p, obj, src, ig⟩]) := by
    unfold Registry.addDependency
    rw [habsent]
    cases hp : reg.pending.lookup func.name with
    | none => simp [hp, lookup_aset_self]
    | some deps => simp [hp, lookup_aset_self]
  have hpnodup : ((reg.addDependency func.name p obj src ig).pending.map (·.1)).Nodup := by
    unfold Registry.addDependency
    rw [habsent]
    cases hp : reg.pending.lookup func.name with
    | none => simp only [hp]; exact aset_keys_nodup _ _ _ hnodup
    | some deps => simp only [hp]; exact aset_keys_nodup _ _ _ hnodup
  refine ⟨hpend, ?_, ?_⟩
  · simp only [Registry.registerTool]
    rw [hpend]
    simp [lookup_aset_self]
  · simp only [Registry.registerTool]
    rw [hpend]
    exact lookup_adel_self _ _ hpnodup

/-- Witness for C10: registering `filter` into an empty registry yields the
fresh descriptor with an empty dependency list. -/
theorem register_tool_fresh_metadata_witness :
    (Registry.registerTool ⟨[], []⟩ filterFunc "").tools.lookup "filter"
      = some { name := "filter", func := filterFunc
               description := "filter rows"
               parameters := filterFunc.params, dependencies := [] } ∧
    ((Registry.registerTool ⟨[], []⟩ filterFunc "").tools.lookup "filter").map
      (fun md => md.dependencies) = some [] := by
  have h := register_tool_fresh_metadata ⟨[], []⟩ filterFunc ""
  exact ⟨h.1, h.2 (by simp [List.lookup])⟩

/-- Witness for C9: a `column` dependency declared before `filter` registers
is buffered and then merged into the fresh descriptor, and the pending entry
is removed. -/
theorem dependency_buffered_then_merged_witness :
    List.lookup "filter"
      (Registry.registerTool
        (Registry.addDependency ⟨[], []⟩ "filter" "column"
          (SourceObj.vals [DepVal.dStr "a", DepVal.dStr "b"]) "cols" false)
        filterFunc "").tools
      = some { name := "filter", func := filterFunc
               description := "filter rows"
               parameters := filterFunc.params
               dependencies := [⟨"column",
                 SourceObj.vals [DepVal.dStr "a", DepVal.dStr "b"],
                 "cols", false⟩] } ∧
    List.lookup "filter"
      (Registry.registerTool
        (Registry.addDependency ⟨[], []⟩ "filter" "column"
          (SourceObj.vals [DepVal.dStr "a", DepVal.dStr "b"]) "cols" false)
        filterFunc "").pending = none := by
  have h := dependency_buffered_then_merged ⟨[], []⟩ filterFunc "" "column" "cols"
    (SourceObj.vals [DepVal.dStr "a", DepVal.dStr "b"]) false
    (by simp [List.lookup]) (by simp)
  exact ⟨h.2.1, h.2.2⟩

/-! ## C4: the parameter-grammar cache -/

/-- The raw grammar text of a grammar-flagged `source_object`. Under the
decorator contract `is_grammar` is set only for string payloads, so the
`vals` case is unreachable; it is mapped to the empty string. -/
def SourceObj.gramText : SourceObj → String
  | .gram t => t
  | .vals _ => ""

/-- Python `list(source_object)`: a list snapshot is itself; `list` applied
to a string yields its one-character strings. -/
def SourceObj.asList : SourceObj → List DepVal
  | .vals vs => vs
  | .gram t => t.data.map (fun c => DepVal.dStr ⟨[c]⟩)

/-- The grammar `generate_parameter_grammar` computes on a cache miss from
the dependency's value snapshot (grammar.py lines 125-133). -/
def paramGrammarFor (values : List DepVal) : String :=
  if values.isEmpty then "root ::= \"NO_OPTIONS_AVAILABLE\""
  else "root ::= " ++
    pyJoin " | " (values.map (fun v => "\"" ++ escapeString v.pyStr ++ "\""))

/-- `GrammarGenerator.generate_parameter_grammar` (grammar.py lines 87-142)
with the cache passed as state. (`list(...)` cannot fail on the modelled
payloads, so the `except` path that returns `None` without caching is
unreachable here.) -/
def generateParameterGrammar (reg : Registry) (toolName paramName : String)
    (st : GenState) : Option String × GenState :=
  match reg.getTool toolName with
  | none => (none, st)
  | some tool =>
    match tool.getDependency paramName with
    | none => (none, st)
    | some dep =>
      if dep.isGrammar then (some dep.sourceObject.gramText, st)
      else
        let cacheKey := toolName ++ "_" ++ paramName ++ "_grammar"
        let objHash := HashVal.valsKey dep.sourceObject.asList
        let cached :=
          match st.cache.lookup cacheKey with
          | some g =>
              if st.objectHashes.lookup cacheKey = some objHash then some g
              else none
          | none => none
        match cached with
        | some g => (some g, st)
        | none =>
          let grammar := paramGrammarFor dep.sourceObject.asList
          (some grammar,
            { cache := aset cacheKey grammar st.cache
              objectHashes := aset cacheKey objHash st.objectHashes })

/-- What the spec describes as fresh recomputation of the parameter grammar
from the current registry state, with no cache involved: `None` without a
dependency, raw text for a grammar dependency, the enumerated alternation
otherwise. -/
def paramGrammarSpec (reg : Registry) (toolName paramName : String) :
    Option String :=
  match reg.getTool toolName with
  | none => none
  | some tool =>
    match tool.getDependency paramName with
    | none => none
    | some dep =>
      if dep.isGrammar then some dep.sourceObject.gramText
      else some (paramGrammarFor dep.sourceObject.asList)

/-- Well-formedness of parameter-grammar cache entries: a cached grammar
stored under a digest of value snapshot `vs` is the grammar computed from
`vs`. -/
def ParamCacheWF (st : GenState) : Prop :=
  ∀ key g vs, st.cache.lookup key = some g →
    st.objectHashes.lookup key = some (.valsKey vs) →
    g = paramGrammarFor vs

/-- **C4 (amended).** The parameter-grammar cache is a sound memoization:
from any well-formed cache state the returned grammar equals fresh
recomputation from the current registry state (so unchanged state returns
identical content, and any change to a dependency's hashed value snapshot is
picked up rather than served stale), well-formedness is preserved, and an
immediately repeated call returns the identical cached string without
touching the state. -/
theorem param_grammar_cache_correct (reg : Registry) (toolName paramName : String)
    (st : GenState) (hwf : ParamCacheWF st) :
    (generateParameterGrammar reg toolName paramName st).1 =
      paramGrammarSpec reg toolName paramName ∧
    ParamCacheWF (generateParameterGrammar reg toolName paramName st).2 ∧
    generateParameterGrammar reg toolName paramName
        (generateParameterGrammar reg toolName paramName st).2 =
      generateParameterGrammar reg toolName paramName st := by
  rcases htool : reg.getTool toolName with _ | tool
  · refine ⟨?_, ?_, ?_⟩
    · simp [generateParameterGrammar, paramGrammarSpec, htool]
    · have h2 : (generateParameterGrammar reg toolName paramName st).2 = st := by
        simp [generateParameterGrammar, htool]
      rw [h2]; exact hwf
    · simp [generateParameterGrammar, htool]
  · rcases hdep : tool.getDependency paramName with _ | dep
    · refine ⟨?_, ?_, ?_⟩
      · simp [generateParameterGrammar, paramGrammarSpec, htool, hdep]
      · have h2 : (generateParameterGrammar reg toolName paramName st).2 = st := by
          simp [generateParameterGrammar, htool, hdep]
        rw [h2]; exact hwf
      · simp [generateParameterGrammar, htool, hdep]
    · by_cases hig : dep.isGrammar
      · refine ⟨?_, ?_, ?_⟩
        · simp [generateParameterGrammar, paramGrammarSpec, htool, hdep, hig]
        · have h2 : (generateParameterGrammar reg toolName paramName st).2 = st := by
            simp [generateParameterGrammar, htool, hdep, hig]
          rw [h2]; exact hwf
        · simp [generateParameterGrammar, htool, hdep, hig]
      · cases hc : st.cache.lookup (toolName ++ "_" ++ paramName ++ "_grammar") with
        | some g =>
          by_cases hh : st.objectHashes.lookup (toolName ++ "_" ++ paramName ++ "_grammar")
              = some (.valsKey dep.sourceObject.asList)
          · have hres : generateParameterGrammar reg toolName paramName st = (some g, st) := by
              simp [generateParameterGrammar, htool, hdep, hig, hc, hh]
            have hg := hwf _ _ _ hc hh
            refine ⟨?_, ?_, ?_⟩
            · rw [hres]
              simp [paramGrammarSpec, htool, hdep, hig, hg]
            · rw [hres]; exact hwf
            · rw [hres]
              exact hres
          · have hres : generateParameterGrammar reg toolName paramName st =
                (some (paramGrammarFor dep.sourceObject.asList),
                  { cache := aset (toolName ++ "_" ++ paramName ++ "_grammar")
                      (paramGrammarFor dep.sourceObject.asList) st.cache
                    objectHashes := aset (toolName ++ "_" ++ paramName ++ "_grammar")
                      (HashVal.valsKey dep.sourceObject.asList) st.objectHashes }) := by
              simp [generateParameterGrammar, htool, hdep, hig, hc, hh]
            have hwf2 : ParamCacheWF (generateParameterGrammar reg toolName paramName st).2 := by
              rw [hres]
              intro key g' vs hc' hh'
              by_cases hk : key = toolName ++ "_" ++ paramName ++ "_grammar"
              · subst hk
                rw [lookup_aset_self] at hc' hh'
                cases hc'
                cases hh'
                rfl
              · rw [lookup_aset_ne _ _ _ _ hk] at hc' hh'
                exact hwf _ _ _ hc' hh'
            refine ⟨?_, hwf2, ?_⟩
            · rw [hres]
              simp [paramGrammarSpec, htool, hdep, hig]
            · rw [hres]
              simp [generateParameterGrammar, htool, hdep, hig, lookup_aset_self]
        | none =>
          have hres : generateParameterGrammar reg toolName paramName st =
              (some (paramGrammarFor dep.sourceObject.asList),
                { cache := aset (toolName ++ "_" ++ paramName ++ "_grammar")
                    (paramGrammarFor dep.sourceObject.asList) st.cache
                  objectHashes := aset (toolName ++ "_" ++ paramName ++ "_grammar")
                    (HashVal.valsKey dep.sourceObject.asList) st.objectHashes }) := by
            simp [generateParameterGrammar, htool, hdep, hig, hc]
          have hwf2 : ParamCacheWF (generateParameterGrammar reg toolName paramName st).2 := by
            rw [hres]
            intro key g' vs hc' hh'
            by_cases hk : key = toolName ++ "_" ++ paramName ++ "_grammar"
            · subst hk
              rw [lookup_aset_self] at hc' hh'
              cases hc'
              cases hh'
              rfl
            · rw [lookup_aset_ne _ _ _ _ hk] at hc' hh'
              exact hwf _ _ _ hc' hh'
          refine ⟨?_, hwf2, ?_⟩
          · rw [hres]
            simp [paramGrammarSpec, htool, hdep, hig]
          · rw [hres]
            simp [generateParameterGrammar, htool, hdep, hig, lookup_aset_self]

/-- A one-parameter tool used to exercise parameter dependencies. -/
def reportFunc : PyFunc :=
  { name := "report", doc := "report on x"
    params := [("x", ⟨"str", none⟩)]
    call := fun _ => .ok .vNone }

/-- Registry with `report` registered and an enumerated dependency on its
`x` parameter holding the given values. -/
def valueRegistry (vals : List DepVal) : Registry :=
  Registry.addDependency (Registry.registerTool ⟨[], []⟩ reportFunc "")
    "report" "x" (SourceObj.vals vals) "vals" false

/-- Counterexample to C4 as stated: changing the dependency's values from
the integer `1` to the string `"1"` changes the hashed content (the digest
differs and the grammar is recomputed) yet yields byte-identical grammar
content, so "any change to a dependency's values yields different content"
fails; moreover the hash covers the values in declaration order, not
sorted: reordering `["a","b"]` to `["b","a"]` (equal as sorted sets)
produces different grammar content. -/
theorem param_grammar_value_change_counterexample :
    (generateParameterGrammar (valueRegistry [DepVal.dInt 1]) "report" "x"
        emptyGenState).1 = some "root ::= \"1\"" ∧
    (generateParameterGrammar (valueRegistry [DepVal.dStr "1"]) "report" "x"
        (generateParameterGrammar (valueRegistry [DepVal.dInt 1]) "report" "x"
          emptyGenState).2).1 = some "root ::= \"1\"" ∧
    (generateParameterGrammar (valueRegistry [DepVal.dStr "a", DepVal.dStr "b"])
        "report" "x" emptyGenState).1 = some "root ::= \"a\" | \"b\"" ∧
    (generateParameterGrammar (valueRegistry [DepVal.dStr "b", DepVal.dStr "a"])
        "report" "x" emptyGenState).1 = some "root ::= \"b\" | \"a\"" :=
  ⟨rfl, rfl, rfl, rfl⟩

/-- Witness for the amended C4 at a concrete dependency. -/
theorem param_grammar_cache_correct_witness :
    (generateParameterGrammar (valueRegistry [DepVal.dStr "a"]) "report" "x"
        emptyGenState).1
      = paramGrammarSpec (valueRegistry [DepVal.dStr "a"]) "report" "x" ∧
    generateParameterGrammar (valueRegistry [DepVal.dStr "a"]) "report" "x"
        (generateParameterGrammar (valueRegistry [DepVal.dStr "a"]) "report" "x"
          emptyGenState).2
      = generateParameterGrammar (valueRegistry [DepVal.dStr "a"]) "report" "x"
          emptyGenState := by
  have h := param_grammar_cache_correct (valueRegistry [DepVal.dStr "a"])
    "report" "x" emptyGenState
    (by intro key g vs hc _; simp [emptyGenState, List.lookup] at hc)
  exact ⟨h.1, h.2.2⟩

/-! ## C5: the cycle sanitizer (src/scripts/validate_python_gbnf.py) -/

/-- Flush the scanner's token buffer (`extract_refs`'s inner `flush`): a
non-empty token whose first character is lowercase is recorded as a rule
reference; the buffer is always cleared by the caller. -/
def flushBuf (buf : List Char) (refs : List String) : List String :=
  match buf with
  | [] => refs
  | c :: _ => if c.isLower then refs ++ [⟨buf⟩] else refs

/-- The two-state scanner of `extract_refs` (validate_python_gbnf.py lines
114-162): identifier-shaped tokens (alphanumeric or `-`) outside quoted
literals and bracketed character classes, with backslash escapes skipping
the following character. -/
def extractRefsAux : List Char → Bool → Bool → List Char → List String → List String
  | [], _, _, buf, refs => flushBuf buf refs
  | c :: cs, inQuote, inClass, buf, refs =>
    if inQuote then
      if c = '\\' then
        match cs with
        | [] => flushBuf buf refs
        | _ :: cs2 => extractRefsAux cs2 true inClass buf refs
      else if c = '"' then extractRefsAux cs false inClass buf refs
      else extractRefsAux cs true inClass buf refs
    else if inClass then
      if c = '\\' then
        match cs with
        | [] => flushBuf buf refs
        | _ :: cs2 => extractRefsAux cs2 inQuote true buf refs
      else if c = ']' then extractRefsAux cs inQuote false buf refs
      else extractRefsAux cs inQuote true buf refs
    else if c = '"' then extractRefsAux cs true inClass [] (flushBuf buf refs)
    else if c = '[' then extractRefsAux cs inQuote true [] (flushBuf buf refs)
    else if c.isAlphanum || c = '-' then
      extractRefsAux cs inQuote inClass (buf ++ [c]) refs
    else extractRefsAux cs inQuote inClass [] (flushBuf buf refs)

/-- `extract_refs`. -/
def extractRefs (rhs : String) : List String :=
  extractRefsAux rhs.data false false [] []

/-- Python `str.splitlines()` for texts whose line separator is `'\n'` (the
only separator appearing in the grammars handled here): like
`split('\n')` but with no trailing empty piece for a trailing newline and
`[]` for the empty string. -/
def pySplitLines (s : String) : List String :=
  if s.data = [] then []
  else if s.data.getLast? = some '\n' then (pySplitNl s).dropLast
  else pySplitNl s

/-- `line.split(sep, 1)`: split at the first occurrence of `sep`, or `none`
when `sep` does not occur (which also decides `sep in line`). -/
def splitFirst (sep : List Char) : List Char → Option (List Char × List Char)
  | [] => none
  | c :: cs =>
    if sep.isPrefixOf (c :: cs) then some ([], (c :: cs).drop sep.length)
    else (splitFirst sep cs).map (fun p => (c :: p.1, p.2))

/-- The `rules` dict of `sanitize_cycles` (lines 166-176): for each line
containing `::=`, the stripped name maps to the stripped right-hand side
(later lines overwrite in place; empty names are skipped). The `order` list
the Python builds alongside is never used afterwards. -/
def gbnfRules (text : String) : List (String × String) :=
  (pySplitLines text).foldl
    (fun rules line =>
      match splitFirst ("::=").data line.data with
      | none => rules
      | some (nm, rhs) =>
        let name := pyStrip ⟨nm⟩
        if name = "" then rules
        else aset name (pyStrip ⟨rhs⟩) rules)
    []

/-- The rule-reference graph (line 178): each rule maps to those extracted
references that are themselves rule names. -/
def gbnfGraph (rules : List (String × String)) : List (String × List String) :=
  rules.map (fun nr =>
    (nr.1, (extractRefs nr.2).filter (fun r => (rules.lookup r).isSome)))

/-- Tarjan's bookkeeping state (`index`, `stack`, `on_stack`, `index_map`,
`lowlink`, `cycles`); the stack's top is the list head. -/
structure TarjanSt where
  index : Nat
  stack : List String
  onStack : List String
  indexMap : List (String × Nat)
  lowlink : List (String × Nat)
  cycles : List String

/-- Pop the SCC stack down to (and including) `v`. -/
def popUntil (v : String) : List String → List String → List String × List String
  | [], acc => (acc, [])
  | w :: rest, acc =>
    if w = v then (acc ++ [w], rest) else popUntil v rest (acc ++ [w])

/-- Add the members of a popped component to the `cycles` set. -/
def addCycles (scc : List String) (cycles : List String) : List String :=
  scc.foldl (fun cy w => if w ∈ cy then cy else cy ++ [w]) cycles

/-- `strongconnect` (lines 187-215). The recursion is bounded by fuel; every
nested call happens on a node not yet indexed and indexing only grows, so
fuel exceeding the number of rules reproduces the Python recursion exactly. -/
def strongconnect (g : List (String × List String)) : Nat → String → TarjanSt → TarjanSt
  | 0, _, st => st
  | fuel + 1, v, st =>
    let st1 : TarjanSt :=
      { st with
        indexMap := aset v st.index st.indexMap
        lowlink := aset v st.index st.lowlink
        index := st.index + 1
        stack := v :: st.stack
        onStack := v :: st.onStack }
    let st2 := ((g.lookup v).getD []).foldl
      (fun (stacc : TarjanSt) (w : String) =>
        if (stacc.indexMap.lookup w).isNone then
          let stw := strongconnect g fuel w stacc
          { stw with
            lowlink := aset v (min ((stw.lowlink.lookup v).getD 0)
              ((stw.lowlink.lookup w).getD 0)) stw.lowlink }
        else if w ∈ stacc.onStack then
          { stacc with
            lowlink := aset v (min ((stacc.lowlink.lookup v).getD 0)
              ((stacc.indexMap.lookup w).getD 0)) stacc.lowlink }
        else stacc)
      st1
    if st2.lowlink.lookup v = st2.indexMap.lookup v then
      let popped := popUntil v st2.stack []
      let scc := popped.1
      let st3 : TarjanSt :=
        { st2 with
          stack := popped.2
          onStack := st2.onStack.filter (fun w => !scc.contains w) }
      if 1 < scc.length then { st3 with cycles := addCycles scc st3.cycles }
      else
        match scc with
        | [w] =>
          if w ∈ (g.lookup w).getD [] then
            { st3 with cycles := addCycles [w] st3.cycles }
          else st3
        | _ => st3
    else st2

/-- The cyclic rule names found by the Tarjan pass over all rules (lines
217-219), with enough fuel for the full recursion. -/
def tarjanCycles (g : List (String × List String)) (nodes : List String) :
    List String :=
  (nodes.foldl
    (fun (st : TarjanSt) (node : String) =>
      if (st.indexMap.lookup node).isNone then
        strongconnect g (nodes.length + 1) node st
      else st)
    ⟨0, [], [], [], [], []⟩).cycles

/-- `sanitize_cycles` (lines 165-238): detect cyclic rules, rewrite each of
them to the shared fallback rule, append the fallback rule once if absent,
and return the rewritten text with the sorted flattened names; acyclic input
is returned unchanged with `[]`. -/
def sanitizeCycles (text : String) : String × List String :=
  let rules := gbnfRules text
  let graph := gbnfGraph rules
  let cycles := tarjanCycles graph (rules.map (·.1))
  if cycles.isEmpty then (text, [])
  else
    let fallback := "fallback ::= tok-name | tok-number | tok-string"
    let outLines := (pySplitLines text).foldl
      (fun acc line =>
        match splitFirst ("::=").data line.data with
        | some (nm, _) =>
          let name := pyStrip ⟨nm⟩
          if name ∈ cycles then acc ++ [name ++ " ::= fallback"]
          else acc ++ [line]
        | none => acc ++ [line])
      []
    let outLines2 :=
      if outLines.any (fun l => pyStartsWith (pyStrip l) "fallback ::=") then
        outLines
      else outLines ++ [fallback]
    (pyJoin "\n" outLines2 ++ "\n", sortStrings cycles)

/-- One breadth step of reachability in the rule-reference graph. -/
def reachStep (g : List (String × List String)) (s : List String) : List String :=
  (s ++ s.flatMap (fun v => (g.lookup v).getD [])).dedup

/-- All nodes reachable from `s` within `n` steps. -/
def reachAux (g : List (String × List String)) : Nat → List String → List String
  | 0, s => s
  | n + 1, s => reachAux g n (reachStep g s)

/-- Acyclicity of a rule-reference graph, checked independently of the
Tarjan pass: no rule reaches itself through one or more edges. -/
def graphAcyclic (g : List (String × List String)) : Bool :=
  g.all (fun nr => !(reachAux g g.length ((g.lookup nr.1).getD [])).contains nr.1)

theorem sortStrings_eq (l l' : List String) (hp : List.Perm l' l)
    (hs : l'.Sorted (· ≤ ·)) : sortStrings l = l' := by
  refine List.eq_of_perm_of_sorted ((List.mergeSort_perm l _).trans hp.symm) ?_ hs
  have h := @List.sorted_mergeSort String
    (fun a b : String => decide (a ≤ b))
    (fun a b c hab hbc => by
      exact decide_eq_true (le_trans (of_decide_eq_true hab) (of_decide_eq_true hbc)))
    (fun a b => by
      show (decide (a ≤ b) || decide (b ≤ a)) = true
      rcases le_total a b with h | h
      · rw [decide_eq_true h, Bool.true_or]
      · rw [decide_eq_true h, Bool.or_true])
    l
  exact h.imp (fun hd => of_decide_eq_true hd)

/-- An acyclic two-rule grammar. -/
def acyclicGrammar : String := "root ::= item item\nitem ::= [a-z]+"

/-- The minimal `a → b → a` rule cycle. -/
def cyclicGrammar : String := "a ::= b\nb ::= a"

/-- **C5.** On the acyclic grammar the sanitizer is a byte-identical no-op
with an empty flattened list; on the `a → b → a` cycle it rewrites both
rules to the shared fallback rule, appends the fallback rule once, returns
the sorted flattened names, and the rule-reference graph of the rewritten
grammar is acyclic. -/
theorem sanitize_cycles_correct :
    (graphAcyclic (gbnfGraph (gbnfRules acyclicGrammar)) = true ∧
     sanitizeCycles acyclicGrammar = (acyclicGrammar, [])) ∧
    ((sanitizeCycles cyclicGrammar).1 =
        "a ::= fallback\nb ::= fallback\nfallback ::= tok-name | tok-number | tok-string\n" ∧
     (sanitizeCycles cyclicGrammar).2 = ["a", "b"] ∧
     graphAcyclic (gbnfGraph (gbnfRules (sanitizeCycles cyclicGrammar).1)) = true) := by
  refine ⟨⟨by decide, by decide⟩, by decide, ?_, by decide⟩
  show sortStrings ["b", "a"] = ["a", "b"]
  refine sortStrings_eq _ _ (by decide) ?_
  simp only [List.sorted_cons, List.mem_singleton, forall_eq,
    List.sorted_singleton, and_true]
  rw [String.le_iff_toList_le]
  decide

/-! ## C6 / C7: output normalization and type coercion (src/cinfer/agent.py)

Helpers modelling the Python library calls the coercion pipeline uses:
`str.split`, `str.find`, `int(...)`, `float(...)` (syntax check only; the
numeric value is kept as its text since nothing downstream computes with
it), `re.search(r"\d+", ...)`, and `json.loads` for the JSON fragment the
generator can produce (strings with the standard single-character escapes,
integers, floats, arrays, objects, `true`/`false`/`null`; `\uXXXX` escapes
and the non-standard `NaN`/`Infinity` literals are not modelled). -/

/-- `str.split(sep)` for a one-character separator: every occurrence
separates; empty pieces are kept. -/
def splitOnAux (sep : Char) (cur : List Char) : List Char → List (List Char)
  | [] => [cur.reverse]
  | c :: cs =>
    if c = sep then cur.reverse :: splitOnAux sep [] cs
    else splitOnAux sep (c :: cur) cs

/-- `str.split(sep)`. -/
def pySplitOn (sep : Char) (s : String) : List String :=
  (splitOnAux sep [] s.data).map (fun l => ⟨l⟩)

/-- `str.find(c)`: index of the first occurrence, `none` for Python's `-1`. -/
def pyFindIdx (c : Char) : List Char → Option Nat
  | [] => none
  | x :: xs => if x = c then some 0 else (pyFindIdx c xs).map (· + 1)

/-- Numeric value of a digit run. -/
def natFromDigits (l : List Char) : Int :=
  ((l.foldl (fun n c => n * 10 + (c.toNat - 48)) 0 : Nat) : Int)

/-- `re.search(r"\d+", s)`: the first maximal digit run. -/
def firstDigitRun : List Char → Option (List Char)
  | [] => none
  | c :: cs =>
    if c.isDigit then some (c :: cs.takeWhile Char.isDigit)
    else firstDigitRun cs

/-- Python `int(s)`: surrounding whitespace, an optional sign, digits. -/
def pyParseInt (s : String) : Option Int :=
  let l := pyStripChars s.data
  let signAndRest : Int × List Char :=
    match l with
    | '-' :: r => (-1, r)
    | '+' :: r => (1, r)
    | _ => (1, l)
  if signAndRest.2 ≠ [] ∧ signAndRest.2.all Char.isDigit then
    some (signAndRest.1 * natFromDigits signAndRest.2)
  else none

/-- Exponent part of a float literal: empty, or `e`/`E`, optional sign,
digits. -/
def floatExpPart : List Char → Bool
  | [] => true
  | c :: r =>
    if c = 'e' || c = 'E' then
      let r2 := match r with
        | '+' :: r2 => r2
        | '-' :: r2 => r2
        | _ => r
      decide (r2 ≠ []) && r2.all Char.isDigit
    else false

/-- Mantissa-and-exponent body of a float literal. -/
def floatBody (l : List Char) : Bool :=
  let d1 := l.takeWhile Char.isDigit
  let r1 := l.dropWhile Char.isDigit
  match r1 with
  | '.' :: r2 =>
    let d2 := r2.takeWhile Char.isDigit
    let r3 := r2.dropWhile Char.isDigit
    (decide (d1 ≠ []) || decide (d2 ≠ [])) && floatExpPart r3
  | _ => decide (d1 ≠ []) && floatExpPart r1

/-- Python `float(s)` as a syntax check, keeping the stripped text. -/
def pyParseFloat (s : String) : Option String :=
  let l := pyStripChars s.data
  let body := match l with
    | '-' :: r => r
    | '+' :: r => r
    | _ => l
  if pyLower ⟨body⟩ ∈ (["inf", "infinity", "nan"] : List String) || floatBody body then
    some ⟨l⟩
  else none

/-- JSON whitespace. -/
def isJsonWs (c : Char) : Bool := c = ' ' || c = '\t' || c = '\n' || c = '\r'

/-- Scan a JSON string body after the opening quote: decoded characters and
the rest after the closing quote; `none` on an invalid escape, an unescaped
control character, or a missing closing quote. -/
def jsonStringAux : List Char → Option (List Char × List Char)
  | [] => none
  | c :: cs =>
    if c = '"' then some ([], cs)
    else if c = '\\' then
      match cs with
      | [] => none
      | e :: cs2 =>
        let decoded : Option Char :=
          if e = '"' then some '"'
          else if e = '\\' then some '\\'
          else if e = '/' then some '/'
          else if e = 'n' then some '\n'
          else if e = 'r' then some '\r'
          else if e = 't' then some '\t'
          else if e = 'b' then some (Char.ofNat 8)
          else if e = 'f' then some (Char.ofNat 12)
          else none
        match decoded with
        | none => none
        | some d => (jsonStringAux cs2).map (fun p => (d :: p.1, p.2))
    else if c.toNat < 32 then none
    else (jsonStringAux cs).map (fun p => (c :: p.1, p.2))

/-- Parse the optional exponent of a JSON number: the consumed characters
and the rest, or `none` when an `e`/`E` is not followed by digits. -/
def jsonExponent (l : List Char) : Option (List Char × List Char) :=
  match l with
  | [] => some ([], [])
  | c :: r =>
    if c = 'e' || c = 'E' then
      let signAndRest : List Char × List Char :=
        match r with
        | '+' :: r2 => (['+'], r2)
        | '-' :: r2 => (['-'], r2)
        | _ => ([], r)
      let eds := signAndRest.2.takeWhile Char.isDigit
      if eds = [] then none
      else some (c :: signAndRest.1 ++ eds, signAndRest.2.dropWhile Char.isDigit)
    else some ([], c :: r)

/-- Parse a JSON number: optional minus, digits, optional fraction and
exponent; a plain integer becomes `vInt`, anything else keeps its text as a
`vFloat`. -/
def jsonNumber (l : List Char) : Option (PyVal × List Char) :=
  let negAndRest : Bool × List Char :=
    match l with
    | '-' :: r => (true, r)
    | _ => (false, l)
  let ds := negAndRest.2.takeWhile Char.isDigit
  let r1 := negAndRest.2.dropWhile Char.isDigit
  if ds = [] then none
  else
    let sgn : List Char := if negAndRest.1 then ['-'] else []
    match r1 with
    | '.' :: r2 =>
      let fs := r2.takeWhile Char.isDigit
      let r3 := r2.dropWhile Char.isDigit
      if fs = [] then none
      else
        match jsonExponent r3 with
        | none => none
        | some (ec, r4) =>
          some (PyVal.vFloat ⟨sgn ++ ds ++ '.' :: fs ++ ec⟩, r4)
    | _ =>
      match jsonExponent r1 with
      | none => none
      | some ([], r4) =>
        some (PyVal.vInt ((if negAndRest.1 then -1 else 1) * natFromDigits ds), r4)
      | some (ec, r4) =>
        some (PyVal.vFloat ⟨sgn ++ ds ++ ec⟩, r4)

/-- Parse one JSON value (fuel-bounded; fuel exceeding the text length is
enough). An array or object tail is parsed by re-entering the parser on a
re-bracketed remainder, rejecting trailing commas as `json.loads` does. -/
def jsonVal : Nat → List Char → Option (PyVal × List Char)
  | 0, _ => none
  | fuel + 1, input =>
    let l := input.dropWhile isJsonWs
    match l with
    | [] => none
    | c :: cs =>
      if c = '"' then (jsonStringAux cs).map (fun p => (PyVal.vStr ⟨p.1⟩, p.2))
      else if c = '[' then
        let rest := cs.dropWhile isJsonWs
        match rest with
        | ']' :: r => some (PyVal.vList [], r)
        | _ =>
          match jsonVal fuel rest with
          | none => none
          | some (item, r1) =>
            let r2 := r1.dropWhile isJsonWs
            match r2 with
            | ',' :: r3 =>
              if (r3.dropWhile isJsonWs).headD ' ' = ']' then none
              else
                match jsonVal fuel ('[' :: r3) with
                | some (PyVal.vList items, r4) => some (PyVal.vList (item :: items), r4)
                | _ => none
            | ']' :: r3 => some (PyVal.vList [item], r3)
            | _ => none
      else if c = '{' then
        let rest := cs.dropWhile isJsonWs
        match rest with
        | '}' :: r => some (PyVal.vDict [], r)
        | '"' :: ks =>
          match jsonStringAux ks with
          | none => none
          | some (key, r1) =>
            match r1.dropWhile isJsonWs with
            | ':' :: r2 =>
              match jsonVal fuel r2 with
              | none => none
              | some (v, r3) =>
                let r4 := r3.dropWhile isJsonWs
                match r4 with
                | ',' :: r5 =>
                  if (r5.dropWhile isJsonWs).headD ' ' = '}' then none
                  else
                    match jsonVal fuel ('{' :: r5) with
                    | some (PyVal.vDict fields, r6) =>
                        some (PyVal.vDict ((⟨key⟩, v) :: fields), r6)
                    | _ => none
                | '}' :: r5 => some (PyVal.vDict [(⟨key⟩, v)], r5)
                | _ => none
            | _ => none
        | _ => none
      else if ("true").data.isPrefixOf l then some (PyVal.vBool true, l.drop 4)
      else if ("false").data.isPrefixOf l then some (PyVal.vBool false, l.drop 5)
      else if ("null").data.isPrefixOf l then some (PyVal.vNone, l.drop 4)
      else jsonNumber l

/-- `json.loads`: one JSON value covering the whole text (modulo
whitespace). -/
def jsonLoads (s : String) : Option PyVal :=
  match jsonVal (s.data.length + 1) s.data with
  | some (v, rest) => if rest.dropWhile isJsonWs = [] then some v else none
  | none => none

/-- The English number-word table of the integer coercion path
(agent.py lines 422-432), verbatim. -/
def numberWords : List (String × Int) :=
  [("zero", 0), ("one", 1), ("two", 2), ("three", 3), ("four", 4), ("five", 5),
   ("six", 6), ("seven", 7), ("eight", 8), ("nine", 9), ("ten", 10),
   ("eleven", 11), ("twelve", 12), ("thirteen", 13), ("fourteen", 14), ("fifteen", 15),
   ("sixteen", 16), ("seventeen", 17), ("eighteen", 18), ("nineteen", 19), ("twenty", 20),
   ("twenty-one", 21), ("twenty-two", 22), ("twenty-three", 23), ("twenty-four", 24),
   ("twenty-five", 25), ("twenty-six", 26), ("twenty-seven", 27), ("twenty-eight", 28),
   ("twenty-nine", 29), ("thirty", 30), ("thirty-one", 31), ("thirty-two", 32),
   ("forty", 40), ("forty-five", 45), ("fifty", 50), ("fifty-seven", 57),
   ("sixty", 60), ("sixty-two", 62),
   ("seventy", 70), ("eighty", 80), ("ninety", 90), ("hundred", 100)]

/-- Field-by-field coercion of one decoded object before record
construction (agent.py lines 496-511): integer-typed string fields get
their leading digit run extracted; everything else is kept. -/
def coerceRecordItem (schema : List (String × String)) (fields : List (String × PyVal)) :
    List (String × PyVal) :=
  fields.map (fun kv =>
    match schema.lookup kv.1 with
    | some ftype =>
      if pyContains (pyLower ftype) "int" then
        match kv.2 with
        | PyVal.vStr s =>
          match firstDigitRun s.data with
          | some ds => (kv.1, PyVal.vInt (natFromDigits ds))
          | none => kv
        | _ => kv
      else kv
    | none => kv)

/-- Modelled external behaviour (`inner_type(**coerced_item)` with a
pydantic `BaseModel`): construction succeeds when every declared field is
present with a value matching its declared tag (`int` tags want integers,
`str` tags want strings, other tags accept anything); otherwise it raises
and the original item is kept by the caller. -/
def validateRecord (schema : List (String × String)) (fields : List (String × PyVal)) :
    Except String PyVal :=
  if schema.all (fun fs =>
      match fields.lookup fs.1 with
      | none => false
      | some v =>
        if pyContains (pyLower fs.2) "int" then
          match v with
          | PyVal.vInt _ => true
          | _ => false
        else if pyContains (pyLower fs.2) "str" then
          match v with
          | PyVal.vStr _ => true
          | _ => false
        else true) then
    .ok (PyVal.vRecord "model" fields)
  else .error "validation error"

/-- `bracket_count` scan (agent.py lines 459-468): index one past the `]`
closing the first bracketed span, `0` when it never closes. -/
def bracketEnd (count : Int) (idx : Nat) : List Char → Nat
  | [] => 0
  | c :: cs =>
    if c = '[' then bracketEnd (count + 1) (idx + 1) cs
    else if c = ']' then
      if count - 1 = 0 then idx + 1 else bracketEnd (count - 1) (idx + 1) cs
    else bracketEnd count (idx + 1) cs

/-- The bracketed-span cut of the list coercion (agent.py lines 450-470):
drop everything before the first `[`, then truncate at the bracket-counted
matching `]` when one is found. -/
def listCoercionSpan (value0 : String) : String :=
  let value1 : String :=
    match pyFindIdx '[' value0.data with
    | some i => ⟨value0.data.drop i⟩
    | none => value0
  if pyStartsWith (pyStrip value1) "[" then
    let e := bracketEnd 0 0 value1.data
    if 0 < e then ⟨value1.data.take e⟩ else value1
  else value1

/-- The list branch of the coercion (agent.py lines 446-533): cut the text
down to the first bracketed span (bracket counting), `json.loads` it, map
decoded objects through the record schema when the element type is a
pydantic record, and on any failure fall back to comma-splitting the cut
text. Iterating a decoded non-list (the Python `for item in parsed_list`)
yields characters of a string, keys of an object, and raises otherwise. -/
def coerceList (ann : ParamAnn) (value0 : String) : PyVal :=
  let value2 : String := listCoercionSpan value0
  let commaFallback : PyVal :=
    PyVal.vList ((((pySplitOn ',' value2).map pyStrip).filter
      (fun v => v ≠ "")).map PyVal.vStr)
  match jsonLoads value2 with
  | none => commaFallback
  | some parsed =>
    match ann.recordFields with
    | none => parsed
    | some schema =>
      match parsed with
      | PyVal.vList items =>
        PyVal.vList (items.map (fun item =>
          match item with
          | PyVal.vDict fields =>
            match validateRecord schema (coerceRecordItem schema fields) with
            | .ok obj => obj
            | .error _ => item
          | _ => item))
      | PyVal.vStr s =>
        PyVal.vList (s.data.map (fun c => PyVal.vStr ⟨[c]⟩))
      | PyVal.vDict fields =>
        PyVal.vList (fields.map (fun kv => PyVal.vStr kv.1))
      | _ => commaFallback

/-- The type-coercion tail of `_get_parameter_value` (agent.py lines
408-541): dispatch on substrings of the lowercased annotation string, in
the order int, float, bool, list, dict; any exception inside a branch falls
out to the final handler, which returns the original string. -/
def coerceParam (ann : ParamAnn) (value : String) : PyVal :=
  let tn := pyLower ann.typeName
  if pyContains tn "int" then
    match pyParseInt value with
    | some n => PyVal.vInt n
    | none =>
      match numberWords.lookup (pyStrip (pyLower value)) with
      | some n => PyVal.vInt n
      | none =>
        match firstDigitRun value.data with
        | some ds => PyVal.vInt (natFromDigits ds)
        | none => PyVal.vStr value
  else if pyContains tn "float" then
    match pyParseFloat value with
    | some f => PyVal.vFloat f
    | none => PyVal.vStr value
  else if pyContains tn "bool" then
    PyVal.vBool ((["true", "1", "yes"] : List String).contains (pyLower value))
  else if pyContains tn "list" then coerceList ann value
  else if pyContains tn "dict" then
    match jsonLoads value with
    | some v => v
    | none => PyVal.vStr value
  else PyVal.vStr value

/-- `str.replace(pat, repl)` for a multi-character pattern (left-to-right,
non-overlapping), fuel-bounded by the text length. -/
def pyReplaceAllAux (pat repl : List Char) : Nat → List Char → List Char
  | 0, l => l
  | _, [] => []
  | fuel + 1, c :: cs =>
    if pat.isPrefixOf (c :: cs) then
      repl ++ pyReplaceAllAux pat repl fuel ((c :: cs).drop pat.length)
    else c :: pyReplaceAllAux pat repl fuel cs

/-- `str.replace(pat, repl)`. -/
def pyReplaceAll (pat repl : List Char) (l : List Char) : List Char :=
  pyReplaceAllAux pat repl l.length l

/-- One turn of the conversation history (`{"role": .., "content": ..}`). -/
structure Turn where
  role : String
  content : String

/-- The `tool_call_count` the agent derives from its history (agent.py
lines 265-274, identically twice): the number of ToolResult turns — by any
tool, over the whole persisted history. -/
def toolResultCount (history : List Turn) : Nat :=
  (history.filter (fun t => t.role == "ToolResult")).length

/-- The count the spec's words describe instead: how many ToolResult turns
this particular tool has recorded (ToolResult contents are
`f"{tool_name}: {result}"`). -/
def thisToolInvocations (history : List Turn) (toolName : String) : Nat :=
  (history.filter (fun t =>
    t.role == "ToolResult" && pyStartsWith t.content (toolName ++ ":"))).length

/-- The trailing cleanup steps of `_get_parameter_value` (agent.py lines
389-395): strip the chatty prefixes, each checked once in order
case-insensitively, then residual quote/punctuation characters. -/
def finalCleanup (paramName : String) (value : String) : String :=
  let value :=
    (["Final Answer:", "The answer is:", "value:", "extracted:",
      paramName ++ ":"]).foldl
      (fun v p =>
        if pyStartsWith (pyLower v) (pyLower p) then
          pyStrip ⟨v.data.drop p.data.length⟩
        else v)
      value
  pyStripSet ['"', Char.ofNat 39, Char.ofNat 96, '.', ':'] (pyStrip value)

/-- The value-cleaning pipeline of `_get_parameter_value` (agent.py lines
361-395): trim whitespace and quotes; markdown fences keep the body (all
lines for complex/code parameters, the first for simple ones); otherwise a
simple parameter spanning several non-empty lines keeps the line indexed by
`tool_call_count` clamped to the last; then conversational prefixes and
residual quote/punctuation characters are stripped. -/
def cleanGeneratedValue (paramName : String) (isComplex : Bool)
    (toolCallCount : Nat) (raw : String) : String :=
  let value := pyStripSet ['"'] (pyStrip raw)
  let value :=
    if pyStartsWith value "```" then
      let lines := pySplitNl value
      if 1 < lines.length then
        let lines := lines.drop 1
        let lines :=
          if lines ≠ [] ∧ pyStartsWith (pyStrip (lines.getLast?.getD "")) "```" then
            lines.dropLast
          else lines
        if isComplex || (["content", "code"] : List String).contains paramName then
          pyStrip (pyJoin "\n" lines)
        else
          match lines with
          | [] => ""
          | l :: _ => pyStrip l
      else pyStrip ⟨pyReplaceAll ("```").data [] value.data⟩
    else
      if !(["content", "code"] : List String).contains paramName && !isComplex then
        let lines := ((pySplitNl value).map pyStrip).filter (fun l => l ≠ "")
        if lines ≠ [] then lines.getD (min toolCallCount (lines.length - 1)) ""
        else pyStrip value
      else value
  finalCleanup paramName value

/-- The generation oracle: the backend's reply to the agent's n-th
completion request — generated text, or a transport failure. -/
def Oracle : Type := Nat → Except String String

/-- `_get_parameter_value` (agent.py lines 216-541) for parameters that are
not named `content`/`code` and have no language-grammar dependency (the
literal-language normalization of `_normalize_language_output` lies outside
the claims' scope): the parameter grammar is generated (mutating the cache;
prompt text only parameterizes the oracle), one completion is consumed, and
the reply is cleaned and coerced. -/
def getParameterValue (reg : Registry) (toolName paramName : String)
    (history : List Turn) (oracle : Oracle) (idx : Nat) (gen : GenState) :
    Except String (PyVal × Nat × GenState) :=
  let gen1 := (generateParameterGrammar reg toolName paramName gen).2
  match oracle idx with
  | .error e => .error e
  | .ok raw =>
    let ann? : Option ParamAnn :=
      match reg.getTool toolName with
      | some t => t.parameters.lookup paramName
      | none => none
    let typeStr := match ann? with
      | some a => a.typeName
      | none => ""
    let isComplex :=
      pyContains (pyLower typeStr) "list" || pyContains (pyLower typeStr) "dict"
    let value := cleanGeneratedValue paramName isComplex
      (toolResultCount history) raw
    let result := match ann? with
      | some ann => coerceParam ann value
      | none => PyVal.vStr value
    .ok (result, idx + 1, gen1)

/-! ### C7: list coercion -/

/-- Counterexample to C7 as stated. A parameter declared `List[int]` is a
list-typed parameter, yet the coercion dispatch checks `int` before `list`
in the annotation string, so the text `["a","b"]` is neither JSON-parsed
nor comma-split: the integer branch fails all the way through and the final
handler returns the original string. Also, the comma-split fallback splits
the bracket-cut span, not the raw text. -/
theorem list_coercion_counterexample :
    coerceParam ⟨"typing.List[int]", none⟩ "[\"a\",\"b\"]"
      = PyVal.vStr "[\"a\",\"b\"]" ∧
    (PyVal.vStr "[\"a\",\"b\"]" ≠ PyVal.vList [PyVal.vStr "a", PyVal.vStr "b"]) ∧
    coerceParam ⟨"typing.List[str]", none⟩ "junk, [a, b"
      = PyVal.vList [PyVal.vStr "[a", PyVal.vStr "b"] ∧
    listCoercionSpan "junk, [a, b" = "[a, b" := by
  refine ⟨rfl, ?_, rfl, rfl⟩
  intro h
  exact PyVal.noConfusion h

/-- **C7 (amended).** For a parameter whose declared type string matches
`list` and none of the earlier dispatch tags (`int`, `float`, `bool`),
coercion runs the list branch: it cuts the text to the first bracketed span
by bracket counting and JSON-parses it — so `["a","b"]` under `List[str]`
coerces to the two-element list `["a","b"]` — and on any parse failure it
falls back to comma-splitting the cut span. -/
theorem list_coercion_amended (ann : ParamAnn) (value : String)
    (hl : pyContains (pyLower ann.typeName) "list" = true)
    (hi : pyContains (pyLower ann.typeName) "int" = false)
    (hf : pyContains (pyLower ann.typeName) "float" = false)
    (hb : pyContains (pyLower ann.typeName) "bool" = false) :
    coerceParam ann value = coerceList ann value ∧
    coerceParam ⟨"typing.List[str]", none⟩ "[\"a\",\"b\"]"
      = PyVal.vList [PyVal.vStr "a", PyVal.vStr "b"] ∧
    (jsonLoads (listCoercionSpan value) = none →
      coerceList ann value
        = PyVal.vList ((((pySplitOn ',' (listCoercionSpan value)).map pyStrip).filter
            (fun v => v ≠ "")).map PyVal.vStr)) := by
  refine ⟨?_, rfl, ?_⟩
  · simp [coerceParam, hl, hi, hf, hb]
  · intro hj
    simp [coerceList, hj]

/-- Witness for the amended C7 at `List[str]` and a malformed bracketed
text. -/
theorem list_coercion_amended_witness :
    coerceParam ⟨"typing.List[str]", none⟩ "[\"a\", oops"
      = coerceList ⟨"typing.List[str]", none⟩ "[\"a\", oops" ∧
    coerceList ⟨"typing.List[str]", none⟩ "[\"a\", oops"
      = PyVal.vList ((((pySplitOn ','
          (listCoercionSpan "[\"a\", oops")).map pyStrip).filter
            (fun v => v ≠ "")).map PyVal.vStr) := by
  have h := list_coercion_amended ⟨"typing.List[str]", none⟩ "[\"a\", oops"
    (by decide) (by decide) (by decide) (by decide)
  exact ⟨h.1, h.2.2 (by rfl)⟩

/-! ### C6: multi-line selection for simple parameters -/

/-- The tool whose parameter is being extracted in the C6 scenario. -/
def mytoolFunc : PyFunc :=
  { name := "mytool", doc := ""
    params := [("x", ⟨"str", none⟩)]
    call := fun _ => .ok .vNone }

/-- A second tool whose earlier invocation populates the history. -/
def otherFunc : PyFunc :=
  { name := "other", doc := "", params := [], call := fun _ => .ok .vNone }

/-- Registry with both tools registered. -/
def twoToolRegistry : Registry :=
  (Registry.registerTool (Registry.registerTool ⟨[], []⟩ otherFunc "") mytoolFunc "")

/-- History of a run in which `other` (not `mytool`) has produced one
ToolResult turn. -/
def lineHistory : List Turn :=
  [⟨"User", "msg"⟩, ⟨"ToolResult", "other: Recorded"⟩]

/-- Oracle answering every completion with two lines. -/
def twoLineOracle : Oracle := fun _ => .ok "a\nb"

/-- Counterexample to C6 as stated: extracting `mytool.x` (a tool that has
never been invoked, so the claimed index is 0 and the claimed selection is
line `"a"`) with one ToolResult turn from a different tool in the history
selects line index 1 — the normalizer counts ToolResult turns of every
tool, not invocations of this tool. -/
theorem line_selection_counterexample :
    getParameterValue twoToolRegistry "mytool" "x" lineHistory twoLineOracle 0
        emptyGenState
      = .ok (PyVal.vStr "b", 1, emptyGenState) ∧
    thisToolInvocations lineHistory "mytool" = 0 ∧
    ((((pySplitNl "a\nb").map pyStrip).filter (fun l => l ≠ "")).getD 0 "") = "a" ∧
    ("b" : String) ≠ "a" :=
  ⟨rfl, rfl, rfl, by decide⟩

/-- **C6 (amended).** For a simple (non-code, non-complex) `str`-typed
parameter whose generated value is unfenced and spans at least one
non-empty line, `_get_parameter_value` cleans the value with
`tool_call_count` equal to the number of ToolResult turns in the whole
conversation history (any tool; the history persists across runs), and the
cleaning selects the line at that index clamped to the last line before
stripping prefixes and residual punctuation. -/
theorem line_selection_amended (reg : Registry) (toolName paramName : String)
    (tool : ToolMetadata) (h : List Turn) (oracle : Oracle) (idx : Nat)
    (gen : GenState) (raw : String)
    (htool : reg.getTool toolName = some tool)
    (hann : tool.parameters.lookup paramName = some ⟨"str", none⟩)
    (horacle : oracle idx = .ok raw)
    (hname : ((["content", "code"] : List String).contains paramName) = false)
    (hfence : pyStartsWith (pyStripSet ['"'] (pyStrip raw)) "```" = false)
    (hlines : ((pySplitNl (pyStripSet ['"'] (pyStrip raw))).map pyStrip).filter
        (fun l => l ≠ "") ≠ []) :
    getParameterValue reg toolName paramName h oracle idx gen
      = .ok (PyVal.vStr (cleanGeneratedValue paramName false (toolResultCount h) raw),
        idx + 1, (generateParameterGrammar reg toolName paramName gen).2) ∧
    cleanGeneratedValue paramName false (toolResultCount h) raw
      = finalCleanup paramName
          ((((pySplitNl (pyStripSet ['"'] (pyStrip raw))).map pyStrip).filter
              (fun l => l ≠ "")).getD
            (min (toolResultCount h)
              (((((pySplitNl (pyStripSet ['"'] (pyStrip raw))).map pyStrip).filter
                  (fun l => l ≠ "")).length) - 1)) "") := by
  have hstr : ∀ v : String, coerceParam ⟨"str", none⟩ v = PyVal.vStr v := by
    intro v
    have h1 : pyContains (pyLower "str") "int" = false := by decide
    have h2 : pyContains (pyLower "str") "float" = false := by decide
    have h3 : pyContains (pyLower "str") "bool" = false := by decide
    have h4 : pyContains (pyLower "str") "list" = false := by decide
    have h5 : pyContains (pyLower "str") "dict" = false := by decide
    simp [coerceParam, h1, h2, h3, h4, h5]
  have hcplx1 : pyContains (pyLower "str") "list" = false := by decide
  have hcplx2 : pyContains (pyLower "str") "dict" = false := by decide
  have htool2 : List.lookup toolName reg.tools = some tool := htool
  constructor
  · simp [getParameterValue, Registry.getTool, htool2, hann, horacle,
      hcplx1, hcplx2, hstr]
  · rw [cleanGeneratedValue]
    simp only [hfence, Bool.false_eq_true, if_false, hname, Bool.not_false,
      Bool.and_self, if_true, hlines, ne_eq, not_false_iff]

/-- Witness for the amended C6 at the concrete two-tool scenario. -/
theorem line_selection_amended_witness :
    getParameterValue twoToolRegistry "mytool" "x" lineHistory twoLineOracle 0
        emptyGenState
      = .ok (PyVal.vStr (cleanGeneratedValue "x" false
            (toolResultCount lineHistory) "a\nb"), 1,
          (generateParameterGrammar twoToolRegistry "mytool" "x" emptyGenState).2) ∧
    cleanGeneratedValue "x" false (toolResultCount lineHistory) "a\nb"
      = finalCleanup "x"
          ((((pySplitNl (pyStripSet ['"'] (pyStrip "a\nb"))).map pyStrip).filter
              (fun l => l ≠ "")).getD
            (min (toolResultCount lineHistory)
              (((((pySplitNl (pyStripSet ['"'] (pyStrip "a\nb"))).map pyStrip).filter
                  (fun l => l ≠ "")).length) - 1)) "") := by
  have h := line_selection_amended twoToolRegistry "mytool" "x"
    { name := "mytool", func := mytoolFunc, description := ""
      parameters := mytoolFunc.params, dependencies := [] }
    lineHistory twoLineOracle 0 emptyGenState "a\nb"
    rfl rfl rfl (by decide) (by decide) (by decide)
  exact ⟨h.1, h.2⟩

/-! ## C2 / C3: the agent run loop (agent.py lines 57-696) -/

/-- Python `repr`, as far as the values flowing through tools need it
(string quoting without escape refinements; floats keep their text). -/
def PyVal.pyRepr : PyVal → String
  | .vStr s => String.mk [Char.ofNat 39] ++ s ++ String.mk [Char.ofNat 39]
  | .vInt n => toString n
  | .vFloat raw => raw
  | .vBool b => pyBoolStr b
  | .vNone => "None"
  | .vList items =>
    "[" ++ pyJoin ", " (items.attach.map (fun x => PyVal.pyRepr x.1)) ++ "]"
  | .vDict fields =>
    "\x7b" ++ pyJoin ", " (fields.attach.map (fun x =>
      String.mk [Char.ofNat 39] ++ x.1.1 ++ String.mk [Char.ofNat 39] ++ ": "
        ++ PyVal.pyRepr x.1.2)) ++ "\x7d"
  | .vRecord n fields =>
    n ++ "(" ++ pyJoin ", " (fields.attach.map (fun x =>
      x.1.1 ++ "=" ++ PyVal.pyRepr x.1.2)) ++ ")"
decreasing_by
  · have h := List.sizeOf_lt_of_mem x.2
    simp only [PyVal.vList.sizeOf_spec]
    omega
  · have h := List.sizeOf_lt_of_mem x.2
    obtain ⟨⟨k, v⟩, hm⟩ := x
    simp only [Prod.mk.sizeOf_spec] at h
    simp only [PyVal.vDict.sizeOf_spec]
    omega
  · have h := List.sizeOf_lt_of_mem x.2
    obtain ⟨⟨k, v⟩, hm⟩ := x
    simp only [Prod.mk.sizeOf_spec] at h
    simp only [PyVal.vRecord.sizeOf_spec]
    omega

/-- Python `str(result)` (agent.py line 611). -/
def PyVal.pyStr : PyVal → String
  | .vStr s => s
  | v => PyVal.pyRepr v

/-- The constructor arguments of `Agent` that influence control flow
(`system_prompt`, `server_url`, `temperature` and the trace file only
parameterize prompts and transport). -/
structure AgentCfg where
  maxIterations : Nat
  allowNoTool : Bool
  reasoningTokens : Int

/-- The mutable per-run data: `conversation_history` (persisted on the
agent across runs), the next oracle index (which completion call comes
next), and the grammar generator's cache. -/
structure RunState where
  history : List Turn
  idx : Nat
  gen : GenState

/-- `Agent._reason` (lines 149-178): no completion call at all when the
reasoning budget is not positive, otherwise one completion whose reply is
stripped. -/
def reasonStep (cfg : AgentCfg) (oracle : Oracle) (s : RunState) :
    Except String (String × RunState) :=
  if cfg.reasoningTokens ≤ 0 then .ok ("", s)
  else
    match oracle s.idx with
    | .error e => .error e
    | .ok r => .ok (pyStrip r, { s with idx := s.idx + 1 })

/-- `Agent._select_tool` (lines 180-214): generate the selection grammar
(mutating the cache), bail out with `None` when no tools exist, otherwise
one constrained completion; `"NONE"` maps to `None`. -/
def selectTool (reg : Registry) (cfg : AgentCfg) (oracle : Oracle)
    (s : RunState) : Except String (Option String × RunState) :=
  let gen1 := (generateToolsGrammar reg cfg.allowNoTool s.gen).2
  if reg.tools.isEmpty then .ok (none, { s with gen := gen1 })
  else
    match oracle s.idx with
    | .error e => .error e
    | .ok t =>
      let name := pyStripSet ['"'] (pyStrip t)
      let s1 : RunState := { s with idx := s.idx + 1, gen := gen1 }
      if name = "NONE" then .ok (none, s1) else .ok (some name, s1)

/-- The parameter-gathering loop of `_execute_tool` (lines 599-605], one
`_get_parameter_value` per declared parameter in order. -/
def gatherParams (reg : Registry) (toolName : String) (history : List Turn)
    (oracle : Oracle) :
    List (String × ParamAnn) → Nat → GenState →
    Except String (List (String × PyVal) × Nat × GenState)
  | [], idx, gen => .ok ([], idx, gen)
  | (pname, _) :: rest, idx, gen =>
    match getParameterValue reg toolName pname history oracle idx gen with
    | .error e => .error e
    | .ok (v, idx1, gen1) =>
      match gatherParams reg toolName history oracle rest idx1 gen1 with
      | .error e => .error e
      | .ok (kw, idx2, gen2) => .ok ((pname, v) :: kw, idx2, gen2)

/-- `Agent._execute_tool` (lines 580-615): unknown names become a discrete
"not found" result; a raising tool is caught and converted to an
error-string result; only transport failures escape. -/
def executeTool (reg : Registry) (toolName : String) (history : List Turn)
    (oracle : Oracle) (idx : Nat) (gen : GenState) :
    Except String (String × Nat × GenState) :=
  match reg.getTool toolName with
  | none => .ok ("Error: Tool " ++ toolName ++ " not found", idx, gen)
  | some tool =>
    match gatherParams reg toolName history oracle tool.parameters idx gen with
    | .error e => .error e
    | .ok (kwargs, idx1, gen1) =>
      match tool.func.call kwargs with
      | .ok v => .ok (PyVal.pyStr v, idx1, gen1)
      | .error e => .ok ("Error executing tool: " ++ e, idx1, gen1)

/-- The iteration loop of `Agent.run` (lines 646-693): on iterations after
the first, one re-reasoning completion is appended and a literal
`process_complete` in it stops the loop; then a tool is selected (`NONE`
stops) and executed, its result appended as a ToolResult turn. -/
def runLoop (reg : Registry) (cfg : AgentCfg) (oracle : Oracle) :
    Nat → Nat → RunState → Except String RunState
  | 0, _, s => .ok s
  | rem + 1, iter, s =>
    let afterReason : Except String (Bool × RunState) :=
      if 0 < iter then
        match oracle s.idx with
        | .error e => .error e
        | .ok r =>
          let r2 := pyStrip r
          let s1 : RunState :=
            { s with idx := s.idx + 1, history := s.history ++ [⟨"Reasoning", r2⟩] }
          if pyContains (pyLower r2) "process_complete" then .ok (true, s1)
          else .ok (false, s1)
      else .ok (false, s)
    match afterReason with
    | .error e => .error e
    | .ok (true, s1) => .ok s1
    | .ok (false, s1) =>
      match selectTool reg cfg oracle s1 with
      | .error e => .error e
      | .ok (none, s2) => .ok s2
      | .ok (some toolName, s2) =>
        match executeTool reg toolName s2.history oracle s2.idx s2.gen with
        | .error e => .error e
        | .ok (result, idx3, gen3) =>
          runLoop reg cfg oracle rem (iter + 1)
            { history := s2.history ++ [⟨"ToolResult", toolName ++ ": " ++ result⟩]
              idx := idx3, gen := gen3 }

/-- `Agent.run` (lines 617-696): append the user turn, reason (appending a
non-empty reasoning turn), return the reasoning immediately when no tools
are registered, otherwise run the loop and return the count summary. -/
def runAgent (reg : Registry) (cfg : AgentCfg) (oracle : Oracle)
    (userMessage : String) (s0 : RunState) :
    Except String (String × RunState) :=
  let s1 : RunState := { s0 with history := s0.history ++ [⟨"User", userMessage⟩] }
  match reasonStep cfg oracle s1 with
  | .error e => .error e
  | .ok (reasoning, s2) =>
    let s3 : RunState :=
      if reasoning ≠ "" then
        { s2 with history := s2.history ++ [⟨"Reasoning", reasoning⟩] }
      else s2
    if reg.tools.isEmpty then .ok (reasoning, s3)
    else
      match runLoop reg cfg oracle cfg.maxIterations 0 s3 with
      | .error e => .error e
      | .ok s4 =>
        .ok ("Completed " ++ toString (toolResultCount s4.history)
          ++ " tool calls", s4)

/-- The `Agent(...)` constructor defaults: `max_iterations=10`,
`allow_no_tool=False`, `reasoning_tokens=50`. -/
def cfgDefault : AgentCfg := ⟨10, false, 50⟩

/-- An oracle whose every completion is a free-text answer. -/
def answerOracle : Oracle := fun _ => .ok "the answer is 42"

/-- Counterexample to C2 as stated: with zero tools registered, `run()`
returns the reasoning text verbatim (agent.py line 643), not a
count-of-tool-calls summary. -/
theorem run_no_tools_counterexample :
    runAgent ⟨[], []⟩ cfgDefault answerOracle "question" ⟨[], 0, emptyGenState⟩
      = .ok ("the answer is 42",
          ⟨[⟨"User", "question"⟩, ⟨"Reasoning", "the answer is 42"⟩], 1,
            emptyGenState⟩) ∧
    ("the answer is 42" : String) ≠ "Completed 0 tool calls" :=
  ⟨rfl, by decide⟩

/-- **C2 (amended).** Whenever at least one tool is registered, `run()`
returns the plain count summary `Completed {n} tool calls`, with `n` the
number of ToolResult turns in the final conversation history — never the
last tool's raw result; with zero tools it instead returns the reasoning
text (see the counterexample). -/
theorem run_returns_count_summary (reg : Registry) (cfg : AgentCfg)
    (oracle : Oracle) (msg : String) (s0 : RunState)
    (res : String × RunState)
    (hne : reg.tools.isEmpty = false)
    (hrun : runAgent reg cfg oracle msg s0 = .ok res) :
    res.1 = "Completed " ++ toString (toolResultCount res.2.history)
      ++ " tool calls" := by
  unfold runAgent at hrun
  split at hrun
  · rename_i htrue
    rw [hne] at htrue
    exact Bool.noConfusion htrue
  · dsimp only at hrun
    split at hrun
    · exact Except.noConfusion hrun
    · split at hrun
      · exact Except.noConfusion hrun
      · injection hrun with h
        subst h
        rfl

/-- An oracle that always elects to use no tool. -/
def noneOracle : Oracle := fun _ => .ok "NONE"

/-- Witness for the amended C2: a run over the one-tool registry in which
the agent immediately selects `NONE` returns the count summary for its
history. -/
theorem run_returns_count_summary_witness :
    filterRegistry.tools.isEmpty = false ∧
    Except.map (fun r : String × RunState => (r.1, r.2.history, r.2.idx))
        (runAgent filterRegistry cfgDefault noneOracle "go" ⟨[], 0, emptyGenState⟩)
      = .ok ("Completed 0 tool calls",
          [⟨"User", "go"⟩, ⟨"Reasoning", "NONE"⟩], 2) ∧
    ("Completed 0 tool calls" : String)
      = "Completed " ++ toString (toolResultCount
          [(⟨"User", "go"⟩ : Turn), ⟨"Reasoning", "NONE"⟩]) ++ " tool calls" := by
  have hproj : Except.map (fun r : String × RunState => (r.1, r.2.history, r.2.idx))
      (runAgent filterRegistry cfgDefault noneOracle "go" ⟨[], 0, emptyGenState⟩)
      = .ok ("Completed 0 tool calls",
          [⟨"User", "go"⟩, ⟨"Reasoning", "NONE"⟩], 2) := rfl
  refine ⟨rfl, hproj, ?_⟩
  cases hres : runAgent filterRegistry cfgDefault noneOracle "go"
      ⟨[], 0, emptyGenState⟩ with
  | error e =>
    rw [hres] at hproj
    exact Except.noConfusion hproj
  | ok res =>
    have h := run_returns_count_summary filterRegistry cfgDefault noneOracle
      "go" ⟨[], 0, emptyGenState⟩ res rfl hres
    rw [hres] at hproj
    injection hproj with h2
    have h1 : res.1 = "Completed 0 tool calls" := congrArg (fun p => p.1) h2
    have hh : res.2.history = [⟨"User", "go"⟩, ⟨"Reasoning", "NONE"⟩] :=
      congrArg (fun p => p.2.1) h2
    rw [← h1, h, hh]

/-! ### C3: failure semantics -/

theorem getParameterValue_ok (reg : Registry) (tn pn : String) (h : List Turn)
    (oracle : Oracle) (idx : Nat) (gen : GenState)
    (hok : ∀ n, ∃ s, oracle n = Except.ok s) :
    ∃ out, getParameterValue reg tn pn h oracle idx gen = .ok out := by
  obtain ⟨s, hs⟩ := hok idx
  unfold getParameterValue
  rw [hs]
  exact ⟨_, rfl⟩

theorem gatherParams_ok (reg : Registry) (tn : String) (h : List Turn)
    (oracle : Oracle) (hok : ∀ n, ∃ s, oracle n = Except.ok s) :
    ∀ (ps : List (String × ParamAnn)) (idx : Nat) (gen : GenState),
    ∃ out, gatherParams reg tn h oracle ps idx gen = .ok out := by
  intro ps
  induction ps with
  | nil => intro idx gen; exact ⟨_, rfl⟩
  | cons p rest ih =>
    intro idx gen
    obtain ⟨pname, ann⟩ := p
    obtain ⟨⟨v, idx1, gen1⟩, hv⟩ := getParameterValue_ok reg tn pname h oracle idx gen hok
    obtain ⟨⟨kw, idx2, gen2⟩, hrest⟩ := ih idx1 gen1
    refine ⟨((pname, v) :: kw, idx2, gen2), ?_⟩
    simp [gatherParams, hv, hrest]

theorem executeTool_ok (reg : Registry) (tn : String) (h : List Turn)
    (oracle : Oracle) (idx : Nat) (gen : GenState)
    (hok : ∀ n, ∃ s, oracle n = Except.ok s) :
    ∃ out, executeTool reg tn h oracle idx gen = .ok out := by
  unfold executeTool
  cases htool : reg.getTool tn with
  | none => exact ⟨_, rfl⟩
  | some tool =>
    obtain ⟨⟨kwargs, idx1, gen1⟩, hg⟩ :=
      gatherParams_ok reg tn h oracle hok tool.parameters idx gen
    simp only [hg]
    cases tool.func.call kwargs with
    | ok v => exact ⟨_, rfl⟩
    | error e => exact ⟨_, rfl⟩

theorem selectTool_ok (reg : Registry) (cfg : AgentCfg) (oracle : Oracle)
    (s : RunState) (hok : ∀ n, ∃ s, oracle n = Except.ok s) :
    ∃ out, selectTool reg cfg oracle s = .ok out := by
  unfold selectTool
  by_cases he : reg.tools.isEmpty = true
  · rw [if_pos he]
    exact ⟨_, rfl⟩
  · rw [if_neg he]
    obtain ⟨t, ht⟩ := hok s.idx
    simp only [ht]
    by_cases hn : pyStripSet ['"'] (pyStrip t) = "NONE"
    · simp only [hn, if_pos]
      exact ⟨_, rfl⟩
    · rw [if_neg hn]
      exact ⟨_, rfl⟩

theorem runLoop_ok (reg : Registry) (cfg : AgentCfg) (oracle : Oracle)
    (hok : ∀ n, ∃ s, oracle n = Except.ok s) :
    ∀ (rem iter : Nat) (s : RunState),
    ∃ s4, runLoop reg cfg oracle rem iter s = .ok s4 := by
  intro rem
  induction rem with
  | zero => intro iter s; exact ⟨s, rfl⟩
  | succ rem ih =>
    intro iter s
    rw [runLoop]
    by_cases hi : 0 < iter
    · obtain ⟨r, hr⟩ := hok s.idx
      simp only [if_pos hi, hr]
      by_cases hc : pyContains (pyLower (pyStrip r)) "process_complete" = true
      · simp only [hc]
        exact ⟨_, rfl⟩
      · simp only [hc]
        simp only [Bool.false_eq_true, if_false]
        obtain ⟨⟨sel, s2⟩, hsel⟩ := selectTool_ok reg cfg oracle
          { s with idx := s.idx + 1, history := s.history ++ [⟨"Reasoning", pyStrip r⟩] } hok
        simp only [hsel]
        cases sel with
        | none => exact ⟨_, rfl⟩
        | some toolName =>
          obtain ⟨⟨result, idx3, gen3⟩, hex⟩ :=
            executeTool_ok reg toolName s2.history oracle s2.idx s2.gen hok
          simp only [hex]
          exact ih (iter + 1) _
    · simp only [if_neg hi]
      obtain ⟨⟨sel, s2⟩, hsel⟩ := selectTool_ok reg cfg oracle s hok
      simp only [hsel]
      cases sel with
      | none => exact ⟨_, rfl⟩
      | some toolName =>
        obtain ⟨⟨result, idx3, gen3⟩, hex⟩ :=
          executeTool_ok reg toolName s2.history oracle s2.idx s2.gen hok
        simp only [hex]
        exact ih (iter + 1) _

/-- **C3.** Failure semantics of the run loop: (1) a raising tool is caught
inside `_execute_tool` and converted into the error-string result
`Error executing tool: ...` — the loop continues and `run()` does not
raise; (2) whenever every completion succeeds (no transport failure),
`run()` returns normally whatever the tools and coercions do; (3) a failed
generation call propagates: if the first completion request fails with a
transport error, `run()` aborts with exactly that error. -/
theorem run_failure_semantics :
    (∀ (reg : Registry) (toolName : String) (tool : ToolMetadata)
        (history : List Turn) (oracle : Oracle) (idx : Nat) (gen : GenState)
        (kwargs : List (String × PyVal)) (idx1 : Nat) (gen1 : GenState)
        (e : String),
      reg.getTool toolName = some tool →
      gatherParams reg toolName history oracle tool.parameters idx gen
        = .ok (kwargs, idx1, gen1) →
      tool.func.call kwargs = .error e →
      executeTool reg toolName history oracle idx gen
        = .ok ("Error executing tool: " ++ e, idx1, gen1)) ∧
    (∀ (reg : Registry) (cfg : AgentCfg) (oracle : Oracle) (msg : String)
        (s0 : RunState),
      (∀ n, ∃ s, oracle n = Except.ok s) →
      ∃ r, runAgent reg cfg oracle msg s0 = .ok r) ∧
    (∀ (reg : Registry) (cfg : AgentCfg) (oracle : Oracle) (msg : String)
        (s0 : RunState) (e : String),
      0 < cfg.reasoningTokens →
      oracle s0.idx = .error e →
      runAgent reg cfg oracle msg s0 = .error e) := by
  refine ⟨?_, ?_, ?_⟩
  · intro reg toolName tool history oracle idx gen kwargs idx1 gen1 e
      htool hparams hfail
    simp only [executeTool, htool, hparams, hfail]
  · intro reg cfg oracle msg s0 hok
    unfold runAgent
    dsimp only
    have hreason : ∃ p, reasonStep cfg oracle
        { s0 with history := s0.history ++ [⟨"User", msg⟩] } = .ok p := by
      unfold reasonStep
      by_cases ht : cfg.reasoningTokens ≤ 0
      · rw [if_pos ht]
        exact ⟨_, rfl⟩
      · rw [if_neg ht]
        obtain ⟨r, hr⟩ := hok
          ({ s0 with history := s0.history ++ [⟨"User", msg⟩] } : RunState).idx
        rw [hr]
        exact ⟨_, rfl⟩
    obtain ⟨⟨reasoning, s2⟩, hreason⟩ := hreason
    rw [hreason]
    dsimp only
    by_cases he : reg.tools.isEmpty = true
    · rw [if_pos he]
      exact ⟨_, rfl⟩
    · rw [if_neg he]
      obtain ⟨s4, hs4⟩ := runLoop_ok reg cfg oracle hok cfg.maxIterations 0 _
      rw [hs4]
      exact ⟨_, rfl⟩
  · intro reg cfg oracle msg s0 e ht herr
    unfold runAgent
    dsimp only
    have hreason : reasonStep cfg oracle
        { s0 with history := s0.history ++ [⟨"User", msg⟩] } = .error e := by
      unfold reasonStep
      rw [if_neg (not_le.2 ht)]
      rw [show ({ s0 with history := s0.history ++ [⟨"User", msg⟩] } : RunState).idx
        = s0.idx from rfl, herr]
    rw [hreason]

/-- A tool that always raises. -/
def failFunc : PyFunc :=
  { name := "boomtool", doc := ""
    params := [("x", ⟨"str", none⟩)]
    call := fun _ => .error "boom" }

/-- Registry holding only the raising tool. -/
def failRegistry : Registry := Registry.registerTool ⟨[], []⟩ failFunc ""

/-- An oracle whose every request fails at the transport. -/
def failOracle : Oracle := fun _ => .error "connection refused"

/-- Witness for C3: the raising tool is converted to an error-string
result, an all-ok oracle yields a normal return, and a transport failure on
the first request aborts the run with that error. -/
theorem run_failure_semantics_witness :
    executeTool failRegistry "boomtool" [] answerOracle 0 emptyGenState
      = .ok ("Error executing tool: boom", 1, emptyGenState) ∧
    (runAgent filterRegistry cfgDefault noneOracle "hi" ⟨[], 0, emptyGenState⟩).isOk
      = true ∧
    runAgent filterRegistry cfgDefault failOracle "hi" ⟨[], 0, emptyGenState⟩
      = .error "connection refused" := by
  have h := run_failure_semantics
  refine ⟨?_, ?_, ?_⟩
  · exact h.1 failRegistry "boomtool"
      { name := "boomtool", func := failFunc, description := ""
        parameters := failFunc.params, dependencies := [] }
      [] answerOracle 0 emptyGenState
      [("x", PyVal.vStr "the answer is 42")] 1 emptyGenState "boom"
      rfl rfl rfl
  · obtain ⟨r, hr⟩ := h.2.1 filterRegistry cfgDefault noneOracle "hi"
      ⟨[], 0, emptyGenState⟩ (fun _ => ⟨"NONE", rfl⟩)
    rw [hr]
    rfl
  · exact h.2.2 filterRegistry cfgDefault failOracle "hi" ⟨[], 0, emptyGenState⟩
      "connection refused" (by decide) rfl

end Cinfer
